import Mathlib

/-!
Verification of the rquote caching core against its specification.

The development shallowly embeds the Python sources of the repository:

* `rquote/cache/persistent.py` — the `PersistentCache` class: key parsing,
  date filtering, merging, TTL handling, and the forward/backward
  auto-extension orchestrator `get_price_auto_merge`;
* `rquote/utils/date.py` — `check_date_format`;
* `rquote/api/price.py` — the date-validation step of `get_price`;
* `rquote/markets/us_stock.py` — `USStockMarket._fetch_price_data`;
* `rquote/utils/http.py` — `HTTPClient.get`.

Modelling conventions:

* `pd.Timestamp` values are modelled as naturals (whole days since an epoch);
  the cache layer only compares them, takes minima/maxima and shifts them by
  whole days.
* A `pandas.DataFrame` with a date index is an ordered list of
  `(timestamp, row)` pairs; only row equality matters to the cache layer, so a
  row is a list of integers.  Frames handled by the cache model are already
  timestamp-indexed, so the source's `pd.to_datetime(df.index)` coercion
  branches are identity steps here.
* Cache keys are colon-separated; a key is modelled as its list of segments
  (segments themselves never contain a colon), so Python's
  `key.split(":")` / `":".join` become structural operations.
* `pd.to_datetime` on a date string and `strftime("%Y-%m-%d")` are abstract
  parameters (`pdParse`, `fmtDate`) of the cache context; witnesses
  instantiate them with decimal read/print.
* The wall clock (`pd.Timestamp.now()`) is an explicit `now` field of the
  context.
* The external fetch callable of `get_price_auto_merge` is modelled as a pure
  function of a call counter and the two date arguments (the remaining
  arguments `symbol, freq, days, fq` are passed through unchanged by the
  source on every call).
-/

namespace RQuote

/-- A candle row: the numeric column values of one bar. Only equality of rows
matters to the cache layer, so columns are modelled as integers. -/
abbrev Row := List Int

/-- A date-indexed `pandas.DataFrame`, as an ordered list of
(timestamp, row) pairs. -/
abbrev DF := List (Nat × Row)

/-- The index of a frame (`df.index`), as the list of its dates. -/
def dfDates (df : DF) : List Nat := df.map Prod.fst

/-- Minimum of a list of naturals (`0` on the empty list; only used on
non-empty lists). -/
def listMin : List Nat → Nat
  | [] => 0
  | [d] => d
  | d :: e :: ds => Nat.min d (listMin (e :: ds))

/-- Maximum of a list of naturals (`0` on the empty list; only used on
non-empty lists). -/
def listMax : List Nat → Nat
  | [] => 0
  | [d] => d
  | d :: e :: ds => Nat.max d (listMax (e :: ds))

/-- `df.index.min()`. -/
def dfMin (df : DF) : Nat := listMin (dfDates df)

/-- `df.index.max()`. -/
def dfMax (df : DF) : Nat := listMax (dfDates df)

/-- `combined[~combined.index.duplicated(keep="last")]`: keep, for every date,
only the last row carrying that date, preserving the relative order of the
surviving rows. -/
def dedupKeepLast : DF → DF
  | [] => []
  | x :: xs =>
    if xs.any (fun y => y.1 == x.1) then dedupKeepLast xs
    else x :: dedupKeepLast xs

/-- Comparison by date, the sort key of `sort_index()`. -/
def dateLe (a b : Nat × Row) : Prop := a.1 ≤ b.1

instance : DecidableRel dateLe := fun a b => inferInstanceAs (Decidable (a.1 ≤ b.1))

instance : IsTotal (Nat × Row) dateLe := ⟨fun a b => Nat.le_total a.1 b.1⟩

instance : IsTrans (Nat × Row) dateLe := ⟨fun _ _ _ hab hbc => Nat.le_trans hab hbc⟩

/-- `df.sort_index()`. -/
def sortByDate (df : DF) : DF := List.insertionSort dateLe df

/-- `PersistentCache._merge_dataframes`: concatenate, drop duplicate dates
keeping the later row, sort by date. -/
def merge_dataframes (df1 df2 : DF) : DF :=
  if df1 = [] then df2
  else if df2 = [] then df1
  else sortByDate (dedupKeepLast (df1 ++ df2))

/-- The record a storage backend keeps for one base key
(`cache_key, symbol, name, data, earliest_date, latest_date, freq, fq,
expire_at`; `updated_at` is bookkeeping the cache never reads). -/
structure Entry where
  symbol : String
  name : String
  df : DF
  earliest : Option String
  latest : Option String
  freq : String
  fq : String
  expireAt : Option Nat
deriving DecidableEq

/-- A cache key, as its list of colon-separated segments. -/
abbrev BKey := List String

/-- A storage backend's state: an association of base keys to records. -/
abbrev Store := List (BKey × Entry)

/-- `StorageBackend.get_raw`: the stored record under a base key, with no TTL
check and no date filtering. -/
def backendGetRaw (st : Store) (k : BKey) : Option Entry :=
  (st.find? (fun p => decide (p.1 = k))).map Prod.snd

/-- `StorageBackend.put`: unconditional overwrite of the record under `k`. -/
def backendPut (st : Store) (k : BKey) (e : Entry) : Store :=
  (k, e) :: st.filter (fun p => !decide (p.1 = k))

/-- `StorageBackend.delete`. -/
def backendDelete (st : Store) (k : BKey) : Store :=
  st.filter (fun p => !decide (p.1 = k))

/-- Python truthiness of a string (`if s:`). -/
def strTruthy (s : String) : Bool := s ≠ ""

/-- Python truthiness of an optional ttl number (`if ttl:`). -/
def ttlTruthy : Option Nat → Bool
  | none => false
  | some n => n != 0

/-- Python `ttl or self.ttl` on optional ttl numbers. -/
def ttlOr (a b : Option Nat) : Option Nat := if ttlTruthy a then a else b

/-- The ambient context of one cache operation: the configured default TTL
(`self.ttl`), the wall clock, and the two date-string conversions. -/
structure CacheCtx where
  ttl : Option Nat
  now : Nat
  pdParse : String → Option Nat
  fmtDate : Nat → String

/-- `PersistentCache._parse_date`: `None` on the empty string, otherwise
`pd.to_datetime` with exceptions mapped to `None`. -/
def parse_date (ctx : CacheCtx) (s : String) : Option Nat :=
  if strTruthy s then ctx.pdParse s else none

/-- `PersistentCache._extract_key_parts` on the segment list of a key:
returns `(symbol, sdate, edate, freq, fq)`. -/
def extract_key_parts (key : BKey) : String × String × String × String × String :=
  if 6 ≤ key.length then
    (key.getD 0 "", key.getD 1 "", key.getD 2 "", key.getD 3 "", key.getD 5 "")
  else if 4 ≤ key.length then
    (key.getD 0 "",
     if 1 < key.length then key.getD 1 "" else "",
     if 2 < key.length then key.getD 2 "" else "",
     key.getD 3 "",
     if 4 < key.length then key.getD 4 "" else ("qfq"))
  else
    (if key ≠ [] then key.getD 0 "" else (""), "", "", "day", "qfq")

/-- `PersistentCache._get_base_key`: the segments of `symbol:freq:fq`. -/
def get_base_key (symbol freq fq : String) : BKey := [symbol, freq, fq]

/-- `PersistentCache._get_dataframe_date_range` (frames in the model are
already timestamp-indexed). -/
def get_dataframe_date_range (df : DF) : Option Nat × Option Nat :=
  if df = [] then (none, none) else (some (dfMin df), some (dfMax df))

/-- `PersistentCache._filter_dataframe_by_date`. -/
def filter_dataframe_by_date (ctx : CacheCtx) (df : DF) (sdate edate : String) : DF :=
  if df = [] then df
  else
    let startD := if strTruthy sdate then parse_date ctx sdate else none
    let endD := if strTruthy edate then parse_date ctx edate else none
    match startD, endD with
    | some s, some e => df.filter (fun p => decide (s ≤ p.1) && decide (p.1 ≤ e))
    | some s, none => df.filter (fun p => decide (s ≤ p.1))
    | none, some e => df.filter (fun p => decide (p.1 ≤ e))
    | none, none => df

/-- `PersistentCache.delete`: re-parses the key through
`_extract_key_parts` and deletes the resulting base key. -/
def cache_delete (st : Store) (key : BKey) : Store :=
  match extract_key_parts key with
  | (symbol, _, _, freq, fq) => backendDelete st (get_base_key symbol freq fq)

/-- The TTL test of `_get_via_backend`:
`self.ttl and expire_at is not None and pd.Timestamp.now() > expire_at`. -/
def entryExpired (ctx : CacheCtx) (ent : Entry) : Bool :=
  ttlTruthy ctx.ttl &&
    (match ent.expireAt with
     | none => false
     | some t => decide (ctx.now > t))

/-- `PersistentCache._get_via_backend`.  Returns the possibly-updated store
(TTL expiry deletes through `cache_delete`) and the hit, if any. -/
def get_via_backend (ctx : CacheCtx) (st : Store) (baseKey : BKey)
    (sdate edate : String) : Store × Option (String × String × DF) :=
  match backendGetRaw st baseKey with
  | none => (st, none)
  | some ent =>
    if entryExpired ctx ent then (cache_delete st baseKey, none)
    else if ent.df = [] then (st, none)
    else
      let cachedEarliest := dfMin ent.df
      let cachedLatest := dfMax ent.df
      let requestSdate := if strTruthy sdate then parse_date ctx sdate else none
      let requestEdate := if strTruthy edate then parse_date ctx edate else none
      let missE := match requestEdate with
        | some e => decide (e < cachedEarliest)
        | none => false
      let missS := match requestSdate with
        | some s => decide (s > cachedLatest)
        | none => false
      if missE || missS then (st, none)
      else
        let filtered := filter_dataframe_by_date ctx ent.df sdate edate
        if filtered = [] then (st, none)
        else (st, some (ent.symbol, ent.name, filtered))

/-- `PersistentCache.get`.  `sdate?`/`edate?` model the optional parameters
(`None` vs. a string). -/
def cache_get (ctx : CacheCtx) (st : Store) (key : BKey)
    (sdate? edate? : Option String) : Store × Option (String × String × DF) :=
  if key.length = 3 then
    get_via_backend ctx st key (sdate?.getD "") (edate?.getD "")
  else
    match extract_key_parts key with
    | (symbol, sdateK, edateK, freq, fq) =>
      get_via_backend ctx st (get_base_key symbol freq fq)
        (sdate?.getD sdateK) (edate?.getD edateK)

/-- `PersistentCache.put`.  The value is the `(symbol, name, df)` triple; the
source's `isinstance` guards are subsumed by the typing, its `df.empty` guard
is kept.  `opTtl` is the per-call ttl parameter. -/
def cache_put (ctx : CacheCtx) (st : Store) (key : BKey)
    (value : String × String × DF) (opTtl : Option Nat) : Store :=
  match value with
  | (symbol, name0, df0) =>
    if df0 = [] then st
    else
      let bff : BKey × String × String :=
        if key.length = 3 then (key, key.getD 1 "", key.getD 2 "")
        else
          match extract_key_parts key with
          | (_, _, _, freq, fq) => (get_base_key symbol freq fq, freq, fq)
      match bff with
      | (baseKey, freq, fq) =>
        let nd : String × DF :=
          match backendGetRaw st baseKey with
          | none => (name0, df0)
          | some ex =>
            (if strTruthy name0 then name0 else ex.name, merge_dataframes ex.df df0)
        match nd with
        | (name, df) =>
          let range := get_dataframe_date_range df
          let expireAt :=
            if ttlTruthy (ttlOr opTtl ctx.ttl) then
              some (ctx.now + ((ttlOr opTtl ctx.ttl).getD 0))
            else none
          backendPut st baseKey
            { symbol := symbol, name := name, df := df,
              earliest := range.1.map ctx.fmtDate, latest := range.2.map ctx.fmtDate,
              freq := freq, fq := fq, expireAt := expireAt }

/-- Row lookup by date in a frame (first match from the left). -/
def rowLookup (df : DF) (d : Nat) : Option Row :=
  (df.find? (fun p => decide (p.1 = d))).map Prod.snd

/-! ### The extension orchestrator `PersistentCache.get_price_auto_merge` -/

/-- Which part of `get_price_auto_merge` issued a network fetch. -/
inductive Phase where
  | initial
  | forward
  | backward
  | fallback
deriving DecidableEq

/-- One `fetch_func` call of the orchestrator, with the surrounding state:
the date-window arguments of the call, the full cached frame that drove it
(`[]` for the initial and fallback one-shot calls), the frame the fetch
returned, and the reloaded full cached frame after the merge-put (`none` when
the phase does not reload, the fetch was empty, or the reload missed). -/
structure TraceEntry where
  phase : Phase
  sdateArg : String
  edateArg : String
  dfBefore : DF
  fetchedDf : DF
  dfAfter : Option DF
deriving DecidableEq

/-- Observations of the orchestrator's backward-trigger evaluation. -/
structure AutoAudit where
  reqEdate : Option Nat
  backwardChecked : Bool
  dfAtBackwardCheck : DF
  needBackward : Bool
deriving DecidableEq

/-- Result of one `get_price_auto_merge` run: final store, returned triple,
the fetch calls of each phase in order, and the trigger observations.  The
phases are recorded separately; `AutoResult.trace` is the chronological
sequence (the source performs them in exactly this order: one-shot, forward
loop, backward loop, fallback). -/
structure AutoResult where
  st : Store
  result : String × String × DF
  preTrace : List TraceEntry
  fwdTrace : List TraceEntry
  bwdTrace : List TraceEntry
  postTrace : List TraceEntry
  audit : AutoAudit
deriving DecidableEq

/-- The chronological fetch-call sequence of a run. -/
def AutoResult.trace (r : AutoResult) : List TraceEntry :=
  r.preTrace ++ r.fwdTrace ++ r.bwdTrace ++ r.postTrace

/-- `len(full_df[full_df.index <= request_edate])`. -/
def countLe (df : DF) (e : Nat) : Nat :=
  (df.filter (fun p => decide (p.1 ≤ e))).length

/-- `_get_full_cached`: `self.get(base_key, sdate="", edate="")`. -/
def fullCached (ctx : CacheCtx) (st : Store) (baseKey : BKey) :
    Store × Option (String × String × DF) :=
  cache_get ctx st baseKey (some "") (some "")

/-- The external `fetch_func`, modelled as a pure function of a global call
counter and the two date-window arguments; the remaining source arguments
(`symbol, freq, days, fq`) are constant over the run and are dropped. -/
abbrev FetchFn := Nat → String → String → String × String × DF

/-- The forward-extension loop of `get_price_auto_merge` (fires when the
request edate is later than the cached latest).  State: store, current full
frame, call counter; returns them updated plus the trace of its calls. -/
def forwardLoop (ctx : CacheCtx) (baseKey : BKey) (fetchFn : FetchFn)
    (reqE : Nat) (todayStr : String) :
    Nat → Store → DF → Nat → Store × DF × Nat × List TraceEntry
  | 0, st, fullDf, cnt => (st, fullDf, cnt, [])
  | fuel + 1, st, fullDf, cnt =>
    let currentLatest := dfMax fullDf
    let extendS := ctx.fmtDate (currentLatest + 1)
    let fetched := fetchFn cnt extendS todayStr
    let fdf := fetched.2.2
    if fdf = [] then
      (st, fullDf, cnt + 1, [⟨.forward, extendS, todayStr, fullDf, fdf, none⟩])
    else
      let st1 := cache_put ctx st baseKey fetched none
      match fullCached ctx st1 baseKey with
      | (st2, none) =>
        (st2, fullDf, cnt + 1, [⟨.forward, extendS, todayStr, fullDf, fdf, none⟩])
      | (st2, some r) =>
        let dfNew := r.2.2
        let entry : TraceEntry := ⟨.forward, extendS, todayStr, fullDf, fdf, some dfNew⟩
        if dfMax dfNew ≤ currentLatest then (st2, dfNew, cnt + 1, [entry])
        else if reqE ≤ dfMax dfNew then (st2, dfNew, cnt + 1, [entry])
        else
          match forwardLoop ctx baseKey fetchFn reqE todayStr fuel st2 dfNew (cnt + 1) with
          | (st3, df3, cnt3, tr) => (st3, df3, cnt3, entry :: tr)

/-- The backward-extension loop of `get_price_auto_merge` (fires when the
request edate precedes the cached earliest, or too few rows exist at or
before it). -/
def backwardLoop (ctx : CacheCtx) (baseKey : BKey) (fetchFn : FetchFn)
    (reqE : Nat) (minRows : Nat) :
    Nat → Store → DF → Nat → Store × DF × Nat × List TraceEntry
  | 0, st, fullDf, cnt => (st, fullDf, cnt, [])
  | fuel + 1, st, fullDf, cnt =>
    let currentEarliest := dfMin fullDf
    let extendE := ctx.fmtDate (currentEarliest - 1)
    let fetched := fetchFn cnt "" extendE
    let fdf := fetched.2.2
    if fdf = [] then
      (st, fullDf, cnt + 1, [⟨.backward, "", extendE, fullDf, fdf, none⟩])
    else
      let st1 := cache_put ctx st baseKey fetched none
      match fullCached ctx st1 baseKey with
      | (st2, none) =>
        (st2, fullDf, cnt + 1, [⟨.backward, "", extendE, fullDf, fdf, none⟩])
      | (st2, some r) =>
        let dfNew := r.2.2
        let entry : TraceEntry := ⟨.backward, "", extendE, fullDf, fdf, some dfNew⟩
        if currentEarliest ≤ dfMin dfNew then (st2, dfNew, cnt + 1, [entry])
        else if minRows < countLe dfNew reqE ∧ dfMin dfNew ≤ reqE then
          (st2, dfNew, cnt + 1, [entry])
        else
          match backwardLoop ctx baseKey fetchFn reqE minRows fuel st2 dfNew (cnt + 1) with
          | (st3, df3, cnt3, tr) => (st3, df3, cnt3, entry :: tr)

/-- The one-shot path of `get_price_auto_merge` (cache miss on the full
series, and the final fallback): fetch with the caller's window, `put`, then
`get` in the caller's window, falling back to the fetched triple. -/
def autoOneShot (ctx : CacheCtx) (st : Store) (baseKey : BKey)
    (fetchFn : FetchFn) (cnt : Nat) (sdate edate : String) (ph : Phase)
    (reqEdate : Option Nat) : AutoResult :=
  let fetched := fetchFn cnt sdate edate
  let st1 := cache_put ctx st baseKey fetched none
  match cache_get ctx st1 baseKey (some sdate) (some edate) with
  | (st2, finalHit) =>
    { st := st2,
      result := match finalHit with | some r => r | none => fetched,
      preTrace := [⟨ph, sdate, edate, [], fetched.2.2, none⟩],
      fwdTrace := [], bwdTrace := [], postTrace := [],
      audit := ⟨reqEdate, false, [], false⟩ }

/-- The finalization step of `get_price_auto_merge`: `get` in the caller's
window; on a miss, one fallback fetch with the caller's window plus a
`put`. -/
def autoFinalize (ctx : CacheCtx) (st : Store) (baseKey : BKey)
    (fetchFn : FetchFn) (cnt : Nat) (sdate edate : String)
    (trF trB : List TraceEntry) (audit : AutoAudit) : AutoResult :=
  match cache_get ctx st baseKey (some sdate) (some edate) with
  | (stD, some r) =>
    { st := stD, result := r, preTrace := [], fwdTrace := trF,
      bwdTrace := trB, postTrace := [], audit := audit }
  | (stD, none) =>
    let fetched := fetchFn cnt sdate edate
    { st := cache_put ctx stD baseKey fetched none, result := fetched,
      preTrace := [], fwdTrace := trF, bwdTrace := trB,
      postTrace := [⟨.fallback, sdate, edate, [], fetched.2.2, none⟩],
      audit := audit }

/-- `PersistentCache.get_price_auto_merge`.  The source parses
`request_edate` once and then tests `request_edate is not None` before each
of the two extension loops; the model cases once on the parsed optional
date, which is equivalent. -/
def get_price_auto_merge (ctx : CacheCtx) (st0 : Store)
    (symbol : String) (sdate edate : String) (freq : String) (fq : String)
    (fetchFn : FetchFn) (minRows : Nat) (maxIter : Nat) : AutoResult :=
  let baseKey := get_base_key symbol freq fq
  let requestEdate := if strTruthy edate then parse_date ctx edate else none
  match fullCached ctx st0 baseKey with
  | (stA, none) => autoOneShot ctx stA baseKey fetchFn 0 sdate edate .initial requestEdate
  | (stA, some fcr) =>
    if fcr.2.2 = [] then
      -- `full_df.empty or not isinstance(full_df.index, pd.DatetimeIndex)`:
      -- unreachable in the model (a hit is never empty) but kept from the source
      autoOneShot ctx stA baseKey fetchFn 0 sdate edate .initial requestEdate
    else
      match requestEdate with
      | none =>
        -- neither loop can fire without a request edate
        autoFinalize ctx stA baseKey fetchFn 0 sdate edate [] []
          ⟨none, false, fcr.2.2, false⟩
      | some e =>
        match (if dfMax fcr.2.2 < e then
                 forwardLoop ctx baseKey fetchFn e (ctx.fmtDate ctx.now) maxIter
                   stA fcr.2.2 0
               else (stA, fcr.2.2, 0, [])) with
        | (stB, dfB, cntB, trF) =>
          if decide (e < dfMin dfB) || decide (countLe dfB e ≤ minRows) then
            match backwardLoop ctx baseKey fetchFn e minRows maxIter stB dfB cntB with
            | (stC, _, cntC, trB) =>
              autoFinalize ctx stC baseKey fetchFn cntC sdate edate trF trB
                ⟨some e, true, dfB, true⟩
          else
            autoFinalize ctx stB baseKey fetchFn cntB sdate edate trF []
              ⟨some e, true, dfB, false⟩

/-! ### `rquote/utils/date.py` — `check_date_format`

`check_date_format` first tests the regex `^\d{4}-\d{2}-\d{2}$` and returns
the string unchanged on a match (no calendar validation), then tries
`time.strptime` with the formats `%Y/%m/%d`, `%Y%m%d`, `%Y.%m.%d`,
`%Y_%m_%d`, `%Y-%m-%d` in order and re-renders with
`time.strftime("%Y-%m-%d")`.  CPython's `strptime` matches `%Y` as exactly
four digits, `%m` by the regex alternation `1[0-2]|0[1-9]|[1-9]` and `%d` by
`3[01]|[12]\d|0[1-9]|[1-9]` (alternatives tried in order, with
backtracking), requires the whole string to be consumed, and finally
constructs `datetime.date(year, month, day)`, which raises unless
`1 <= year` and `day` is at most the length of that calendar month.
`strftime` renders `%Y` as the plain decimal year (no zero padding on this
platform) and `%m`/`%d` zero-padded to two digits. -/

/-- Digit test `\d`. -/
def isDigitCh (c : Char) : Bool := 48 ≤ c.toNat && c.toNat ≤ 57

/-- The numeric value of a digit character. -/
def chVal (c : Char) : Nat := c.toNat - 48

/-- The regex `^\d{4}-\d{2}-\d{2}$` of the fast path. -/
def matchesDashYmd (s : String) : Bool :=
  match s.toList with
  | [y1, y2, y3, y4, h1, m1, m2, h2, d1, d2] =>
    isDigitCh y1 && isDigitCh y2 && isDigitCh y3 && isDigitCh y4 &&
    (h1 == '-') && isDigitCh m1 && isDigitCh m2 && (h2 == '-') &&
    isDigitCh d1 && isDigitCh d2
  | _ => false

/-- The `%m` alternation `1[0-2]|0[1-9]|[1-9]`: the candidate
(value, remaining input) pairs in the order the regex engine tries them. -/
def monthAlts : List Char → List (Nat × List Char)
  | cs =>
    (match cs with
     | c1 :: c2 :: rest =>
       if c1 == '1' && (48 ≤ c2.toNat && c2.toNat ≤ 50) then [(10 + chVal c2, rest)] else []
     | _ => []) ++
    (match cs with
     | c1 :: c2 :: rest =>
       if c1 == '0' && (49 ≤ c2.toNat && c2.toNat ≤ 57) then [(chVal c2, rest)] else []
     | _ => []) ++
    (match cs with
     | c1 :: rest =>
       if 49 ≤ c1.toNat && c1.toNat ≤ 57 then [(chVal c1, rest)] else []
     | _ => [])

/-- The `%d` alternation `3[01]|[12]\d|0[1-9]|[1-9]`. -/
def dayAlts : List Char → List (Nat × List Char)
  | cs =>
    (match cs with
     | c1 :: c2 :: rest =>
       if c1 == '3' && (48 ≤ c2.toNat && c2.toNat ≤ 49) then [(30 + chVal c2, rest)] else []
     | _ => []) ++
    (match cs with
     | c1 :: c2 :: rest =>
       if (c1 == '1' || c1 == '2') && isDigitCh c2 then
         [(10 * chVal c1 + chVal c2, rest)] else []
     | _ => []) ++
    (match cs with
     | c1 :: c2 :: rest =>
       if c1 == '0' && (49 ≤ c2.toNat && c2.toNat ≤ 57) then [(chVal c2, rest)] else []
     | _ => []) ++
    (match cs with
     | c1 :: rest =>
       if 49 ≤ c1.toNat && c1.toNat ≤ 57 then [(chVal c1, rest)] else []
     | _ => [])

/-- Whether year `y` is a leap year (Gregorian). -/
def isLeapYear (y : Nat) : Bool :=
  (y % 4 == 0 && y % 100 != 0) || y % 400 == 0

/-- The number of days of month `m` of year `y`. -/
def daysInMonth (y m : Nat) : Nat :=
  if m == 2 then (if isLeapYear y then 29 else 28)
  else if m == 4 || m == 6 || m == 9 || m == 11 then 30
  else 31

/-- `datetime.date(y, m, d)` constructibility (month range is already
guaranteed by the `%m` regex). -/
def validDate (y m d : Nat) : Bool :=
  1 ≤ y && 1 ≤ m && m ≤ 12 && 1 ≤ d && d ≤ daysInMonth y m

/-- Expect the format's separator (none for `%Y%m%d`). -/
def eatSep (sep : Option Char) : List Char → Option (List Char)
  | cs =>
    match sep with
    | none => some cs
    | some c =>
      match cs with
      | c1 :: rest => if c1 == c then some rest else none
      | [] => none

/-- `time.strptime(s, "%Y" sep "%m" sep "%d")`:
four year digits, separator, month alternation, separator, day alternation,
end of input, then the `datetime.date` range check.  Backtracking over the
ordered alternations matches the regex engine: the first overall success
wins. -/
def strptimeYmd (sep : Option Char) (s : String) : Option (Nat × Nat × Nat) :=
  match s.toList with
  | y1 :: y2 :: y3 :: y4 :: rest =>
    if isDigitCh y1 && isDigitCh y2 && isDigitCh y3 && isDigitCh y4 then
      let y := 1000 * chVal y1 + 100 * chVal y2 + 10 * chVal y3 + chVal y4
      match eatSep sep rest with
      | none => none
      | some r1 =>
        (monthAlts r1).findSome? fun mc =>
          match eatSep sep mc.2 with
          | none => none
          | some r2 =>
            (dayAlts r2).findSome? fun dc =>
              if dc.2 = [] then
                if validDate y mc.1 dc.1 then some (y, mc.1, dc.1) else none
              else none
    else none
  | _ => none

/-- Zero-padded two-digit character rendering (`%m`, `%d`). -/
def pad2list (n : Nat) : List Char :=
  [Nat.digitChar (n / 10 % 10), Nat.digitChar (n % 10)]

/-- Zero-padded two-digit rendering (`%m`, `%d`). -/
def pad2 (n : Nat) : String := ⟨pad2list n⟩

/-- Decimal digits of `n`, most significant first (fuelled so the kernel can
evaluate it; `n + 1` fuel always suffices). -/
def natDigitsAux : Nat → Nat → List Char
  | 0, _ => []
  | fuel + 1, n =>
    if n < 10 then [Nat.digitChar n]
    else natDigitsAux fuel (n / 10) ++ [Nat.digitChar (n % 10)]

/-- Plain decimal rendering of a natural (the `%Y` output: no zero
padding). -/
def decRepr (n : Nat) : String := ⟨natDigitsAux (n + 1) n⟩

/-- `time.strftime("%Y-%m-%d")` of a parsed `(y, m, d)`:
the year as a plain decimal number, month and day zero-padded. -/
def fmtYmdDash (y m d : Nat) : String :=
  decRepr y ++ "-" ++ pad2 m ++ "-" ++ pad2 d

/-- The fallback format list of `check_date_format`, in source order:
`%Y/%m/%d`, `%Y%m%d`, `%Y.%m.%d`, `%Y_%m_%d`, `%Y-%m-%d`. -/
def fallbackSeps : List (Option Char) :=
  [some '/', none, some '.', some '_', some '-']

/-- `check_date_format` (`rquote/utils/date.py`): `Except` models the
`ValueError` raise. -/
def check_date_format (s : String) : Except String String :=
  if s = "" then .ok ""
  else if matchesDashYmd s then .ok s
  else
    match fallbackSeps.findSome? (fun sep => strptimeYmd sep s) with
    | some ymd => .ok (fmtYmdDash ymd.1 ymd.2.1 ymd.2.2)
    | none => .error ("date format not recognized: " ++ s)

/-- The error kinds `get_price` can raise while validating dates. -/
inductive PriceErr where
  | symbolErr (msg : String)
deriving DecidableEq

/-- The date-validation step of `get_price` (`rquote/api/price.py`):
normalize `sdate` then `edate` through `check_date_format` when non-empty,
re-raising any `ValueError` as a `SymbolError`. -/
def get_price_check_dates (sdate edate : String) :
    Except PriceErr (String × String) :=
  match (if strTruthy sdate then check_date_format sdate else .ok "") with
  | .error e => .error (.symbolErr ("Invalid date format: " ++ e))
  | .ok s1 =>
    match (if strTruthy edate then check_date_format edate else .ok "") with
    | .error e => .error (.symbolErr ("Invalid date format: " ++ e))
    | .ok e1 => .ok (s1, e1)

/-- The separator characters of a format (`none` is `YYYYMMDD`). -/
def sepList : Option Char → List Char
  | none => []
  | some c => [c]

/-- Spec-side definition (from the claim's words, not from the source): the
rendering of the calendar date `(y, m, d)` in the format designated by `sep`
(`none` is `YYYYMMDD`), all fields zero-padded to their `YYYY`/`MM`/`DD`
widths. -/
def specRenderDate (sep : Option Char) (y m d : Nat) : String :=
  ⟨pad2list (y / 100) ++ pad2list (y % 100) ++ sepList sep ++ pad2list m ++
    sepList sep ++ pad2list d⟩

/-- Spec-side definition (from the claim's words, not from the source):
`s` is a date string in one of the five accepted formats, i.e. the rendering
of some valid calendar date in one of them. -/
def specListedDateStr (s : String) : Bool :=
  [some '-', some '/', none, some '.', some '_'].any fun sep =>
    match s.toList with
    | [y1, y2, y3, y4, c1, m1, m2, c2, d1, d2] =>
      (match sep with | some c => (c1 == c) && (c2 == c) | none => false) &&
      isDigitCh y1 && isDigitCh y2 && isDigitCh y3 && isDigitCh y4 &&
      isDigitCh m1 && isDigitCh m2 && isDigitCh d1 && isDigitCh d2 &&
      validDate (1000 * chVal y1 + 100 * chVal y2 + 10 * chVal y3 + chVal y4)
        (10 * chVal m1 + chVal m2) (10 * chVal d1 + chVal d2)
    | [y1, y2, y3, y4, m1, m2, d1, d2] =>
      (match sep with | some _ => false | none => true) &&
      isDigitCh y1 && isDigitCh y2 && isDigitCh y3 && isDigitCh y4 &&
      isDigitCh m1 && isDigitCh m2 && isDigitCh d1 && isDigitCh d2 &&
      validDate (1000 * chVal y1 + 100 * chVal y2 + 10 * chVal y3 + chVal y4)
        (10 * chVal m1 + chVal m2) (10 * chVal d1 + chVal d2)
    | _ => false

/-! ### `rquote/markets/us_stock.py` — `USStockMarket._fetch_price_data` -/

/-- A parsed vendor frame for the US adapter: the index holds date strings
(the source compares `str(df.index[0])` lexicographically). -/
abbrev USDF := List (String × Row)

/-- The result of `data_source.fetch_kline` + `parser.parse_tencent_kline`
for one candidate symbol; `none` models a raised
`DataSourceError`/`ParseError`. -/
abbrev USFetch := String → Option (String × USDF)

/-- The `_score` helper: `(0, '')` on an empty frame, otherwise
`(len(df), str(df.index[0]))`. -/
def usScore (df : USDF) : Nat × String :=
  if df = [] then (0, "") else (df.length, (df.headD ("", [])).1)

/-- Python `<` on strings: lexicographic comparison of code points. -/
def strLtCh : List Char → List Char → Bool
  | [], [] => false
  | [], _ :: _ => true
  | _ :: _, [] => false
  | a :: as, b :: bs =>
    if a.toNat < b.toNat then true
    else if b.toNat < a.toNat then false
    else strLtCh as bs

/-- Python `<` on strings. -/
def pyStrLt (a b : String) : Bool := strLtCh a.toList b.toList

/-- Python `str.endswith`. -/
def strEndsWith (s suf : String) : Bool := List.isSuffixOf suf.toList s.toList

/-- Python `<` on `(int, str)` score tuples. -/
def scoreLt (a b : Nat × String) : Bool :=
  decide (a.1 < b.1) || (decide (a.1 = b.1) && pyStrLt a.2 b.2)

/-- Python `max(candidates, key=score)`: keeps the earlier element unless a
later one scores strictly greater. -/
def pyMaxBy {α : Type} (key : α → Nat × String) : List α → Option α
  | [] => none
  | x :: xs => some (xs.foldl (fun best y => if scoreLt (key best) (key y) then y else best) x)

/-- `USStockMarket._fetch_price_data`: symbols already carrying a venue
suffix are fetched directly; otherwise the `.OQ` and `.N` candidates are
both fetched, candidates raising or returning fewer than 3 rows are skipped,
and `max` by `_score` picks the winner.  `Except` models the raised
`DataSourceError`. -/
def us_fetch_price_data (fetchParse : USFetch) (symbol : String) :
    Except String (String × String × USDF) :=
  if strEndsWith symbol (".OQ") || strEndsWith symbol (".N")
      || strEndsWith symbol (".AM") then
    match fetchParse symbol with
    | some nd => .ok (symbol, nd.1, nd.2)
    | none => .error ("Failed to fetch " ++ symbol)
  else
    let candidates := [".OQ", ".N"].filterMap fun suffix =>
      let full := symbol ++ suffix
      match fetchParse full with
      | none => none
      | some nd => if nd.2.length < 3 then none else some (full, nd.1, nd.2)
    match pyMaxBy (fun c => usScore c.2.2) candidates with
    | none => .error ("Failed to fetch US symbol " ++ symbol ++ " with .OQ/.N suffixes")
    | some best => .ok best

/-! ### `rquote/utils/http.py` — `HTTPClient.get` -/

/-- The exception taxonomy relevant to `HTTPClient.get`:
`httpx.HTTPError` (what `raise` re-raises) versus the library's own
`rquote.exceptions.NetworkError` (defined but never raised there). -/
inductive RaisedKind where
  | httpxHTTPError
  | networkError
deriving DecidableEq

/-- Observable events of one `HTTPClient.get` call. -/
inductive HttpEvent where
  | attemptCall (i : Nat)
  | sleepFor (amount : Nat)
deriving DecidableEq

/-- The outcome of `HTTPClient.get`. -/
inductive HttpOutcome where
  | success (body : String)
  | raised (k : RaisedKind)
  | noneFallthrough
deriving DecidableEq

/-- The retry loop of `HTTPClient.get`, from loop index `attempt` with
`fuel = retryTimes - attempt` iterations left.  `responses i` is the body the
`i`-th underlying `httpx` call returns, `none` modelling a raised
`httpx.HTTPError`; `retryDelay` is the configured delay in model time
units. -/
def httpGetGo (retryTimes retryDelay : Nat) (responses : Nat → Option String) :
    Nat → Nat → List HttpEvent × HttpOutcome
  | _, 0 => ([], .noneFallthrough)
  | attempt, fuel + 1 =>
    match responses attempt with
    | some body => ([.attemptCall attempt], .success body)
    | none =>
      if attempt = retryTimes - 1 then
        ([.attemptCall attempt], .raised .httpxHTTPError)
      else
        match httpGetGo retryTimes retryDelay responses (attempt + 1) fuel with
        | (evs, out) =>
          (.attemptCall attempt :: .sleepFor (retryDelay * (attempt + 1)) :: evs, out)

/-- `HTTPClient.get`: `for attempt in range(self.retry_times)` with the
linear back-off sleeps, returning the event list and the outcome. -/
def http_client_get (retryTimes retryDelay : Nat)
    (responses : Nat → Option String) : List HttpEvent × HttpOutcome :=
  httpGetGo retryTimes retryDelay responses 0 retryTimes

/-- The full event sequence of a run where every attempt fails:
attempts `0 .. retryTimes-1`, a sleep of `retryDelay * (i+1)` after each
non-final attempt `i`. -/
def httpFailTrace (retryTimes retryDelay : Nat) : List HttpEvent :=
  (List.range retryTimes).flatMap fun i =>
    if i = retryTimes - 1 then [.attemptCall i]
    else [.attemptCall i, .sleepFor (retryDelay * (i + 1))]

/-! ### Concrete instances used by witnesses and counterexamples -/

/-- A concrete date-string parser for witnesses: decimal digits only. -/
def decParse (s : String) : Option Nat :=
  if s = "" then none
  else if s.toList.all isDigitCh then
    some (s.toList.foldl (fun a c => 10 * a + chVal c) 0)
  else none

/-- A concrete context with no default TTL, clock at 100, decimal dates. -/
def witCtx : CacheCtx :=
  { ttl := none, now := 100, pdParse := decParse, fmtDate := fun n => Nat.repr n }

/-- A concrete context with a default TTL of 50 seconds. -/
def witCtxTtl : CacheCtx :=
  { ttl := some 50, now := 100, pdParse := decParse, fmtDate := fun n => Nat.repr n }

/-- A concrete base key. -/
def witKey : BKey := ["sh600000", "day", "qfq"]

/-- A concrete first write: unsorted two-row series on dates 3 and 1. -/
def witV1 : String × String × DF := ("sh600000", "nameA", [(3, [30]), (1, [10])])

/-- A concrete second write overlapping `witV1` on date 3. -/
def witV2 : String × String × DF := ("sh600000", "nameB", [(2, [21]), (3, [31])])

/-- A concrete sorted series for the idempotence witness. -/
def witV3 : String × String × DF := ("sh600000", "nameA", [(1, [10]), (3, [30])])

/-- A concrete live entry on dates 5..7. -/
def witEntC3 : Entry :=
  { symbol := "sh600000", name := "nm", df := [(5, [50]), (6, [60]), (7, [70])],
    earliest := some "5", latest := some "7", freq := "day", fq := "qfq",
    expireAt := none }

/-- A concrete store with one live entry on dates 5..7. -/
def witStoreC3 : Store := [(witKey, witEntC3)]

/-- A concrete already-expired entry (expire time 60, clock 100). -/
def bugEntC5 : Entry :=
  { symbol := "sh600000", name := "nm", df := [(1, [10])],
    earliest := some "1", latest := some "1", freq := "week", fq := "qfq",
    expireAt := some 60 }

/-- A concrete store holding `bugEntC5` under a `week` base key. -/
def bugStoreC5 : Store := [(["sh600000", "week", "qfq"], bugEntC5)]

/-- A concrete store for the orchestrator runs: one cached row on date 10. -/
def witStoreAuto : Store :=
  [(witKey,
    { symbol := "sh600000", name := "nm", df := [(10, [1])],
      earliest := some "10", latest := some "10", freq := "day", fq := "qfq",
      expireAt := none })]

/-- A concrete fetch oracle: the forward probe starting at day 11 yields day
12, backward probes ending at day 9 and 7 yield days 8 and 6, anything else
is empty. -/
def witFetch : FetchFn := fun _ s e =>
  if s = "11" then ("sh600000", "nm", [(12, [2])])
  else if e = "9" then ("sh600000", "nm", [(8, [3])])
  else if e = "7" then ("sh600000", "nm", [(6, [4])])
  else ("sh600000", "nm", [])

/-- A concrete `.OQ` candidate frame: three rows, first date 2024-01-01. -/
def cexDfOQ : USDF :=
  [("2024-01-01", [1]), ("2024-01-02", [2]), ("2024-01-03", [3])]

/-- A concrete `.N` candidate frame: three rows, first date 2024-01-02. -/
def cexDfN : USDF :=
  [("2024-01-02", [4]), ("2024-01-03", [5]), ("2024-01-04", [6])]

/-- A concrete US fetch oracle where both venue candidates return three rows
and the `.OQ` candidate has the earlier first date. -/
def cexUsFetch : USFetch := fun s =>
  if s = "usTST.OQ" then some ("nameOQ", cexDfOQ)
  else if s = "usTST.N" then some ("nameN", cexDfN)
  else none

/-! ## Theorems

General lemmas about the list-level building blocks, then one theorem (plus
witness or counterexample) per claim. -/

theorem listMin_le {l : List Nat} {d : Nat} (h : d ∈ l) : listMin l ≤ d := by
  induction l with
  | nil => cases h
  | cons x xs ih =>
    cases xs with
    | nil =>
      rcases List.mem_singleton.mp h with rfl
      exact Nat.le_refl _
    | cons y ys =>
      rcases List.mem_cons.mp h with rfl | hm
      · exact Nat.le_trans (Nat.min_le_left _ _) (Nat.le_refl _)
      · exact Nat.le_trans (Nat.min_le_right _ _) (ih hm)

theorem le_listMax {l : List Nat} {d : Nat} (h : d ∈ l) : d ≤ listMax l := by
  induction l with
  | nil => cases h
  | cons x xs ih =>
    cases xs with
    | nil =>
      rcases List.mem_singleton.mp h with rfl
      exact Nat.le_refl _
    | cons y ys =>
      rcases List.mem_cons.mp h with rfl | hm
      · exact Nat.le_max_left _ _
      · exact Nat.le_trans (ih hm) (Nat.le_max_right _ _)

theorem dfDates_append (a b : DF) : dfDates (a ++ b) = dfDates a ++ dfDates b :=
  List.map_append _ _ _

theorem mem_dfDates {df : DF} {d : Nat} : d ∈ dfDates df ↔ ∃ r, (d, r) ∈ df := by
  constructor
  · intro h
    rcases List.mem_map.mp h with ⟨p, hp, hd⟩
    exact ⟨p.2, by rwa [show (d, p.2) = p from Prod.ext hd.symm rfl]⟩
  · rintro ⟨r, hr⟩
    exact List.mem_map.mpr ⟨(d, r), hr, rfl⟩

theorem mem_dfDates_dedupKeepLast {l : DF} {d : Nat} :
    d ∈ dfDates (dedupKeepLast l) ↔ d ∈ dfDates l := by
  induction l with
  | nil => simp [dedupKeepLast, dfDates]
  | cons x xs ih =>
    by_cases h : xs.any (fun y => y.1 == x.1) = true
    · rw [show dedupKeepLast (x :: xs) = dedupKeepLast xs from by simp [dedupKeepLast, h]]
      rw [ih]
      constructor
      · intro hm
        exact List.mem_cons_of_mem _ hm
      · intro hm
        rcases List.mem_cons.mp hm with rfl | hm
        · rcases List.any_eq_true.mp h with ⟨y, hy, hyx⟩
          have : y.1 = x.1 := by simpa using hyx
          exact this ▸ List.mem_map.mpr ⟨y, hy, rfl⟩
        · exact hm
    · rw [show dedupKeepLast (x :: xs) = x :: dedupKeepLast xs from by
        simp [dedupKeepLast, h]]
      show d ∈ dfDates (x :: dedupKeepLast xs) ↔ _
      simp only [dfDates, List.map_cons, List.mem_cons]
      rw [show (List.map Prod.fst (dedupKeepLast xs) : List Nat) = dfDates (dedupKeepLast xs)
        from rfl, ih]
      rfl

theorem dfDates_dedupKeepLast_nodup (l : DF) : (dfDates (dedupKeepLast l)).Nodup := by
  induction l with
  | nil => simp [dedupKeepLast, dfDates]
  | cons x xs ih =>
    by_cases h : xs.any (fun y => y.1 == x.1) = true
    · rw [show dedupKeepLast (x :: xs) = dedupKeepLast xs from by simp [dedupKeepLast, h]]
      exact ih
    · rw [show dedupKeepLast (x :: xs) = x :: dedupKeepLast xs from by
        simp [dedupKeepLast, h]]
      show ((x.1 :: dfDates (dedupKeepLast xs)).Nodup)
      refine List.nodup_cons.mpr ⟨?_, ih⟩
      intro hmem
      have hx : x.1 ∈ dfDates xs := mem_dfDates_dedupKeepLast.mp hmem
      rcases mem_dfDates.mp hx with ⟨r, hr⟩
      have : xs.any (fun y => y.1 == x.1) = true :=
        List.any_eq_true.mpr ⟨(x.1, r), hr, by simp⟩
      exact h this

theorem find?_date_of_nodup {l : DF} {d : Nat} {r : Row}
    (hnd : (dfDates l).Nodup) (hm : (d, r) ∈ l) :
    l.find? (fun p => decide (p.1 = d)) = some (d, r) := by
  induction l with
  | nil => cases hm
  | cons x xs ih =>
    rcases List.mem_cons.mp hm with rfl | hm
    · simp [List.find?_cons]
    · have hnd' : (dfDates xs).Nodup := (List.nodup_cons.mp hnd).2
      have hx : ¬ x.1 = d := by
        intro hxd
        have : d ∈ dfDates xs := mem_dfDates.mpr ⟨r, hm⟩
        exact (List.nodup_cons.mp hnd).1 (hxd ▸ this)
      rw [List.find?_cons, decide_eq_false hx]
      exact ih hnd' hm

theorem find?_date_reverse_of_nodup {l : DF} (d : Nat)
    (hnd : (dfDates l).Nodup) :
    l.reverse.find? (fun p => decide (p.1 = d)) = l.find? (fun p => decide (p.1 = d)) := by
  rcases hf : l.find? (fun p => decide (p.1 = d)) with _ | a
  · rw [hf, List.find?_eq_none]
    rw [List.find?_eq_none] at hf
    intro x hx
    exact hf x (List.mem_reverse.mp hx)
  · have hpa : a.1 = d := by simpa using List.find?_some hf
    have hma : a ∈ l := List.mem_of_find?_eq_some hf
    have ha : a = (d, a.2) := Prod.ext hpa rfl
    have hnd' : (dfDates l.reverse).Nodup := by
      rw [show dfDates l.reverse = (dfDates l).reverse from List.map_reverse _ _]
      exact List.nodup_reverse.mpr hnd
    calc l.reverse.find? (fun p => decide (p.1 = d))
        = some (d, a.2) :=
          find?_date_of_nodup hnd' (List.mem_reverse.mpr (ha ▸ hma))
      _ = some a := by rw [← ha]
      _ = l.find? (fun p => decide (p.1 = d)) := hf.symm

theorem dedupKeepLast_find? (l : DF) (d : Nat) :
    (dedupKeepLast l).find? (fun p => decide (p.1 = d)) =
      l.reverse.find? (fun p => decide (p.1 = d)) := by
  induction l with
  | nil => rfl
  | cons x xs ih =>
    rw [List.reverse_cons, List.find?_append]
    by_cases h : xs.any (fun y => y.1 == x.1) = true
    · rw [show dedupKeepLast (x :: xs) = dedupKeepLast xs from by simp [dedupKeepLast, h]]
      rw [ih]
      by_cases hd : x.1 = d
      · rcases List.any_eq_true.mp h with ⟨y, hy, hyx⟩
        have hy1 : y.1 = d := by
          have : y.1 = x.1 := by simpa using hyx
          omega
        have : (xs.reverse.find? (fun p => decide (p.1 = d))).isSome = true :=
          List.find?_isSome.mpr ⟨y, List.mem_reverse.mpr hy, by simp [hy1]⟩
        rcases Option.isSome_iff_exists.mp this with ⟨a, ha⟩
        rw [ha]
        rfl
      · rcases hfind : xs.reverse.find? (fun p => decide (p.1 = d)) with _ | a <;>
          rw [hfind]
        · simp [Option.or, List.find?_cons, decide_eq_false hd]
        · rfl
    · rw [show dedupKeepLast (x :: xs) = x :: dedupKeepLast xs from by
        simp [dedupKeepLast, h]]
      by_cases hd : x.1 = d
      · have hnone : xs.reverse.find? (fun p => decide (p.1 = d)) = none := by
          rw [List.find?_eq_none]
          intro y hy hpy
          have hy1 : y.1 = d := by simpa using hpy
          have : xs.any (fun y => y.1 == x.1) = true :=
            List.any_eq_true.mpr ⟨y, List.mem_reverse.mp hy, by simp [hy1, hd]⟩
          exact h this
        rw [hnone]
        simp [Option.or, List.find?_cons, decide_eq_true hd]
      · simp only [List.find?_cons, decide_eq_false hd, ih]
        rcases hfind : xs.reverse.find? (fun p => decide (p.1 = d)) with _ | a <;>
          rw [hfind]
        · simp [Option.or, List.find?_cons, decide_eq_false hd]
        · rfl

theorem sortByDate_perm (l : DF) : (sortByDate l).Perm l :=
  List.perm_insertionSort _ _

theorem sortByDate_sorted (l : DF) : List.Sorted dateLe (sortByDate l) :=
  List.sorted_insertionSort _ _

theorem merge_dataframes_eq {df1 df2 : DF} (h1 : df1 ≠ []) (h2 : df2 ≠ []) :
    merge_dataframes df1 df2 = sortByDate (dedupKeepLast (df1 ++ df2)) := by
  simp [merge_dataframes, h1, h2]

theorem merge_dates_nodup {df1 df2 : DF} (h1 : df1 ≠ []) (h2 : df2 ≠ []) :
    (dfDates (merge_dataframes df1 df2)).Nodup := by
  rw [merge_dataframes_eq h1 h2]
  have hperm : (dfDates (sortByDate (dedupKeepLast (df1 ++ df2)))).Perm
      (dfDates (dedupKeepLast (df1 ++ df2))) :=
    (sortByDate_perm _).map Prod.fst
  exact hperm.nodup_iff.mpr (dfDates_dedupKeepLast_nodup _)

theorem merge_mem_dates {df1 df2 : DF} (h1 : df1 ≠ []) (h2 : df2 ≠ []) (d : Nat) :
    d ∈ dfDates (merge_dataframes df1 df2) ↔ d ∈ dfDates df1 ∨ d ∈ dfDates df2 := by
  rw [merge_dataframes_eq h1 h2]
  have hperm : (dfDates (sortByDate (dedupKeepLast (df1 ++ df2)))).Perm
      (dfDates (dedupKeepLast (df1 ++ df2))) :=
    (sortByDate_perm _).map Prod.fst
  rw [hperm.mem_iff, mem_dfDates_dedupKeepLast, dfDates_append, List.mem_append]

theorem merge_dates_sorted {df1 df2 : DF} (h1 : df1 ≠ []) (h2 : df2 ≠ []) :
    (dfDates (merge_dataframes df1 df2)).Sorted (· < ·) := by
  have hle : (dfDates (merge_dataframes df1 df2)).Sorted (· ≤ ·) := by
    rw [merge_dataframes_eq h1 h2]
    exact List.pairwise_map.mpr (sortByDate_sorted _)
  have hnd : (dfDates (merge_dataframes df1 df2)).Nodup := merge_dates_nodup h1 h2
  exact (hle.and hnd).imp (fun hab => Nat.lt_of_le_of_ne hab.1 hab.2)

theorem merge_lookup_right {df1 df2 : DF} (h1 : df1 ≠ []) (h2 : df2 ≠ [])
    (hnd2 : (dfDates df2).Nodup) {d : Nat} {r : Row} (hm : (d, r) ∈ df2) :
    rowLookup (merge_dataframes df1 df2) d = some r := by
  have hfind2 : df2.find? (fun p => decide (p.1 = d)) = some (d, r) :=
    find?_date_of_nodup hnd2 hm
  have hrev2 : df2.reverse.find? (fun p => decide (p.1 = d)) = some (d, r) := by
    rw [find?_date_reverse_of_nodup d hnd2]
    exact hfind2
  have hdedup : (dedupKeepLast (df1 ++ df2)).find? (fun p => decide (p.1 = d))
      = some (d, r) := by
    rw [dedupKeepLast_find?, List.reverse_append, List.find?_append, hrev2]
    rfl
  have hmemd : (d, r) ∈ dedupKeepLast (df1 ++ df2) :=
    List.mem_of_find?_eq_some hdedup
  have hnds : (dfDates (sortByDate (dedupKeepLast (df1 ++ df2)))).Nodup := by
    have hperm : (dfDates (sortByDate (dedupKeepLast (df1 ++ df2)))).Perm
        (dfDates (dedupKeepLast (df1 ++ df2))) :=
      (sortByDate_perm _).map Prod.fst
    exact hperm.nodup_iff.mpr (dfDates_dedupKeepLast_nodup _)
  have hmems : (d, r) ∈ sortByDate (dedupKeepLast (df1 ++ df2)) :=
    (sortByDate_perm _).mem_iff.mpr hmemd
  rw [merge_dataframes_eq h1 h2]
  unfold rowLookup
  rw [find?_date_of_nodup hnds hmems]
  rfl

theorem dedupKeepLast_eq_self {l : DF} (hnd : (dfDates l).Nodup) :
    dedupKeepLast l = l := by
  induction l with
  | nil => rfl
  | cons x xs ih =>
    have hx : ¬ xs.any (fun y => y.1 == x.1) = true := by
      intro hc
      rcases List.any_eq_true.mp hc with ⟨y, hy, hyx⟩
      have : y.1 = x.1 := by simpa using hyx
      exact (List.nodup_cons.mp hnd).1 (this ▸ List.mem_map.mpr ⟨y, hy, rfl⟩)
    rw [show dedupKeepLast (x :: xs) = x :: dedupKeepLast xs from by
      simp [dedupKeepLast, hx]]
    rw [ih (List.nodup_cons.mp hnd).2]

theorem dedupKeepLast_append_subset {l1 l2 : DF}
    (hsub : ∀ x ∈ l1, x.1 ∈ dfDates l2) :
    dedupKeepLast (l1 ++ l2) = dedupKeepLast l2 := by
  induction l1 with
  | nil => rfl
  | cons x xs ih =>
    have hx : x.1 ∈ dfDates l2 := hsub x (List.mem_cons_self _ _)
    rcases mem_dfDates.mp hx with ⟨r, hr⟩
    have hany : (xs ++ l2).any (fun y => y.1 == x.1) = true :=
      List.any_eq_true.mpr ⟨(x.1, r), List.mem_append_right _ hr, by simp⟩
    rw [List.cons_append,
      show dedupKeepLast (x :: (xs ++ l2)) = dedupKeepLast (xs ++ l2) from by
        simp [dedupKeepLast, hany]]
    exact ih (fun y hy => hsub y (List.mem_cons_of_mem _ hy))

theorem sortByDate_eq_self {l : DF} (hs : (dfDates l).Sorted (· ≤ ·)) :
    sortByDate l = l := by
  have hs2 : List.Pairwise (fun a b => a ≤ b) (l.map Prod.fst) := hs
  have hs3 : List.Pairwise (fun a b : Nat × Row => a.1 ≤ b.1) l := List.pairwise_map.mp hs2
  exact List.Sorted.insertionSort_eq hs3

theorem merge_self {df : DF} (hne : df ≠ []) (hs : (dfDates df).Sorted (· < ·)) :
    merge_dataframes df df = df := by
  have hnd : (dfDates df).Nodup := hs.imp Nat.ne_of_lt
  rw [merge_dataframes_eq hne hne,
    dedupKeepLast_append_subset (fun x hx => List.mem_map.mpr ⟨x, hx, rfl⟩),
    dedupKeepLast_eq_self hnd,
    sortByDate_eq_self (hs.imp Nat.le_of_lt)]

theorem backendGetRaw_backendPut_self (st : Store) (k : BKey) (e : Entry) :
    backendGetRaw (backendPut st k e) k = some e := by
  simp [backendGetRaw, backendPut, List.find?_cons]

theorem backendGetRaw_backendDelete_ne {k k2 : BKey} (st : Store) (h : k ≠ k2) :
    backendGetRaw (backendDelete st k2) k = backendGetRaw st k := by
  unfold backendGetRaw backendDelete
  induction st with
  | nil => rfl
  | cons p ps ih =>
    by_cases hp : p.1 = k2
    · rw [show List.filter (fun p => !decide (p.1 = k2)) (p :: ps)
          = List.filter (fun p => !decide (p.1 = k2)) ps from by simp [hp]]
      rw [ih, List.find?_cons, show (decide (p.1 = k) : Bool) = false from by
        simp [hp, Ne.symm h]]
    · rw [show List.filter (fun p => !decide (p.1 = k2)) (p :: ps)
          = p :: List.filter (fun p => !decide (p.1 = k2)) ps from by simp [hp]]
      by_cases hk : p.1 = k
      · simp [List.find?_cons, hk]
      · rw [List.find?_cons, List.find?_cons, show (decide (p.1 = k) : Bool) = false from by
          simp [hk]]
        exact ih

/-- The record `cache_put` stores under a fresh length-3 key. -/
theorem cache_put_getRaw_fresh (ctx : CacheCtx) (st : Store) (k : BKey)
    (sym n0 : String) (df0 : DF) (t : Option Nat)
    (hk : k.length = 3) (hdf : df0 ≠ []) (hraw : backendGetRaw st k = none) :
    backendGetRaw (cache_put ctx st k (sym, n0, df0) t) k =
      some { symbol := sym, name := n0, df := df0,
             earliest := (get_dataframe_date_range df0).1.map ctx.fmtDate,
             latest := (get_dataframe_date_range df0).2.map ctx.fmtDate,
             freq := k.getD 1 "", fq := k.getD 2 "",
             expireAt := if ttlTruthy (ttlOr t ctx.ttl) then
               some (ctx.now + ((ttlOr t ctx.ttl).getD 0)) else none } := by
  unfold cache_put
  simp only [hk, hraw, if_neg hdf, reduceIte]
  exact backendGetRaw_backendPut_self _ _ _

/-- The record `cache_put` stores under a length-3 key that already holds a
record. -/
theorem cache_put_getRaw_existing (ctx : CacheCtx) (st : Store) (k : BKey)
    (sym n0 : String) (df0 : DF) (t : Option Nat) (ex : Entry)
    (hk : k.length = 3) (hdf : df0 ≠ []) (hraw : backendGetRaw st k = some ex) :
    backendGetRaw (cache_put ctx st k (sym, n0, df0) t) k =
      some { symbol := sym,
             name := if strTruthy n0 then n0 else ex.name,
             df := merge_dataframes ex.df df0,
             earliest := (get_dataframe_date_range (merge_dataframes ex.df df0)).1.map
               ctx.fmtDate,
             latest := (get_dataframe_date_range (merge_dataframes ex.df df0)).2.map
               ctx.fmtDate,
             freq := k.getD 1 "", fq := k.getD 2 "",
             expireAt := if ttlTruthy (ttlOr t ctx.ttl) then
               some (ctx.now + ((ttlOr t ctx.ttl).getD 0)) else none } := by
  unfold cache_put
  simp only [hk, hraw, if_neg hdf, reduceIte]
  exact backendGetRaw_backendPut_self _ _ _

/-- Claim C1: For every base key k and any two values v1, v2 each holding a
non-empty date-indexed series, after PersistentCache.put(k, v1) followed by
PersistentCache.put(k, v2), the stored series is the sorted-by-date union of
the two date sets, and for every date present in both series the stored row
equals v2's row for that date (the later write wins).  (Starting from a
store without an entry for k; a series has pairwise-distinct dates.) -/
theorem claim_C1 (ctx1 ctx2 : CacheCtx) (st : Store) (k : BKey)
    (sym1 sym2 n1 n2 : String) (df1 df2 : DF) (t1 t2 : Option Nat)
    (hk : k.length = 3) (hfresh : backendGetRaw st k = none)
    (h1 : df1 ≠ []) (h2 : df2 ≠ [])
    (_hnd1 : (dfDates df1).Nodup) (hnd2 : (dfDates df2).Nodup) :
    ∃ ent, backendGetRaw
        (cache_put ctx2 (cache_put ctx1 st k (sym1, n1, df1) t1) k (sym2, n2, df2) t2)
        k = some ent ∧
      (dfDates ent.df).Sorted (· < ·) ∧
      (∀ d, d ∈ dfDates ent.df ↔ d ∈ dfDates df1 ∨ d ∈ dfDates df2) ∧
      (∀ d, d ∈ dfDates df1 → d ∈ dfDates df2 →
        rowLookup ent.df d = rowLookup df2 d) := by
  have hst1 := cache_put_getRaw_fresh ctx1 st k sym1 n1 df1 t1 hk h1 hfresh
  have hst2 := cache_put_getRaw_existing ctx2 _ k sym2 n2 df2 t2 _ hk h2 hst1
  refine ⟨_, hst2, ?_, ?_, ?_⟩
  · exact merge_dates_sorted h1 h2
  · exact merge_mem_dates h1 h2
  · intro d hd1 hd2
    rcases mem_dfDates.mp hd2 with ⟨r, hr⟩
    rw [merge_lookup_right h1 h2 hnd2 hr]
    unfold rowLookup
    rw [find?_date_of_nodup hnd2 hr]
    rfl

/-- Witness for C1 at a concrete store, key and pair of overlapping
series. -/
theorem claim_C1_witness :
    ∃ ent, backendGetRaw
        (cache_put witCtx (cache_put witCtx [] witKey witV1 none) witKey witV2 none)
        witKey = some ent ∧
      (dfDates ent.df).Sorted (· < ·) ∧
      (∀ d, d ∈ dfDates ent.df ↔ d ∈ dfDates witV1.2.2 ∨ d ∈ dfDates witV2.2.2) ∧
      (∀ d, d ∈ dfDates witV1.2.2 → d ∈ dfDates witV2.2.2 →
        rowLookup ent.df d = rowLookup witV2.2.2 d) :=
  claim_C1 witCtx witCtx [] witKey ("sh600000") ("sh600000") ("nameA") ("nameB")
    witV1.2.2 witV2.2.2 none none (by decide) (by decide) (by decide) (by decide)
    (by decide) (by decide)

theorem filter_no_window (ctx : CacheCtx) (df : DF) :
    filter_dataframe_by_date ctx df "" "" = df := by
  unfold filter_dataframe_by_date
  by_cases h : df = [] <;> simp [h, strTruthy]

theorem entryExpired_of_put_expire (ctx : CacheCtx) (e : Entry)
    (h : e.expireAt = none ∨ ∃ v, e.expireAt = some (ctx.now + v)) :
    entryExpired ctx e = false := by
  unfold entryExpired
  rcases h with h | ⟨v, h⟩
  · simp [h]
  · simp [h, decide_eq_false (show ¬ ctx.now > ctx.now + v from by omega)]

theorem get_via_backend_snd_congr (ctx : CacheCtx) {st st2 : Store} (k : BKey)
    (sd ed : String) (h : backendGetRaw st k = backendGetRaw st2 k) :
    (get_via_backend ctx st k sd ed).2 = (get_via_backend ctx st2 k sd ed).2 := by
  unfold get_via_backend
  rw [h]
  rcases backendGetRaw st2 k with _ | ent
  · rfl
  · by_cases hexp : entryExpired ctx ent = true
    · simp [hexp]
    · by_cases hdf : ent.df = []
      · simp [hexp, hdf]
      · simp [hexp, hdf, apply_ite Prod.snd]

theorem get_full_window_hit (ctx : CacheCtx) (st : Store) (k : BKey) (ent : Entry)
    (hk : k.length = 3) (hraw : backendGetRaw st k = some ent)
    (hexp : entryExpired ctx ent = false) (hdf : ent.df ≠ []) :
    (cache_get ctx st k none none).2 = some (ent.symbol, ent.name, ent.df) := by
  unfold cache_get
  simp only [hk, reduceIte, Option.getD_none]
  unfold get_via_backend
  rw [hraw]
  simp only [hexp, Bool.false_eq_true, reduceIte, if_neg hdf, strTruthy]
  simp [filter_no_window, hdf]

/-- Claim C2: For every key k and every value v = (symbol, name, series) with
a non-empty tabular series, executing PersistentCache.put(k, v) twice in
succession leaves the cached series identical to executing it once: the
second put merges v with the already-stored copy of itself without changing
any row, so a subsequent get(k) returns the same series (modulo
timestamp-index coercion).  (Starting from a store without an entry for k; a
series is strictly increasing by date.) -/
theorem claim_C2 (ctx : CacheCtx) (st : Store) (k : BKey)
    (sym n : String) (df : DF) (t : Option Nat)
    (hk : k.length = 3) (hfresh : backendGetRaw st k = none)
    (hne : df ≠ []) (hsorted : (dfDates df).Sorted (· < ·)) :
    backendGetRaw (cache_put ctx (cache_put ctx st k (sym, n, df) t) k (sym, n, df) t) k
        = backendGetRaw (cache_put ctx st k (sym, n, df) t) k ∧
      (cache_get ctx (cache_put ctx (cache_put ctx st k (sym, n, df) t) k (sym, n, df) t)
          k none none).2
        = (cache_get ctx (cache_put ctx st k (sym, n, df) t) k none none).2 ∧
      (cache_get ctx (cache_put ctx st k (sym, n, df) t) k none none).2
        = some (sym, n, df) := by
  have hst1 := cache_put_getRaw_fresh ctx st k sym n df t hk hne hfresh
  have hst2 := cache_put_getRaw_existing ctx _ k sym n df t _ hk hne hst1
  have hmerge : merge_dataframes df df = df := merge_self hne hsorted
  have hsame : backendGetRaw
      (cache_put ctx (cache_put ctx st k (sym, n, df) t) k (sym, n, df) t) k
      = backendGetRaw (cache_put ctx st k (sym, n, df) t) k := by
    rw [hst2, hst1, hmerge]
    by_cases hn : strTruthy n = true <;> simp [hn]
  have hexp1 : entryExpired ctx
      { symbol := sym, name := n, df := df,
        earliest := (get_dataframe_date_range df).1.map ctx.fmtDate,
        latest := (get_dataframe_date_range df).2.map ctx.fmtDate,
        freq := k.getD 1 "", fq := k.getD 2 "",
        expireAt := if ttlTruthy (ttlOr t ctx.ttl) then
          some (ctx.now + ((ttlOr t ctx.ttl).getD 0)) else none } = false := by
    apply entryExpired_of_put_expire
    by_cases hc : ttlTruthy (ttlOr t ctx.ttl) = true
    · exact Or.inr ⟨(ttlOr t ctx.ttl).getD 0, by simp [hc]⟩
    · exact Or.inl (by simp [hc])
  have hget1 : (cache_get ctx (cache_put ctx st k (sym, n, df) t) k none none).2
      = some (sym, n, df) :=
    get_full_window_hit ctx _ k _ hk hst1 hexp1 hne
  refine ⟨hsame, ?_, hget1⟩
  unfold cache_get
  simp only [hk, reduceIte, Option.getD_none]
  exact get_via_backend_snd_congr ctx k _ _ hsame

/-- Witness for C2 at a concrete sorted two-row series. -/
theorem claim_C2_witness :
    backendGetRaw
        (cache_put witCtx (cache_put witCtx [] witKey witV3 none) witKey witV3 none)
        witKey
      = backendGetRaw (cache_put witCtx [] witKey witV3 none) witKey ∧
    (cache_get witCtx
        (cache_put witCtx (cache_put witCtx [] witKey witV3 none) witKey witV3 none)
        witKey none none).2
      = (cache_get witCtx (cache_put witCtx [] witKey witV3 none) witKey none none).2 ∧
    (cache_get witCtx (cache_put witCtx [] witKey witV3 none) witKey none none).2
      = some (("sh600000"), ("nameA"), witV3.2.2) :=
  claim_C2 witCtx [] witKey ("sh600000") ("nameA") witV3.2.2 none
    (by decide) (by decide) (by decide) (by decide)

/-- Claim C3: For every cached entry whose series is non-empty (and, in the
model, timestamp-indexed), PersistentCache.get(key, smoment, emoment)
returns a miss whenever the parsed request end date is strictly earlier than
the cached earliest date or the parsed request start date is strictly later
than the cached latest date; otherwise it returns the cached rows filtered
to the requested window, and a miss if that filtered set is empty.  (Stated
for a live entry: the TTL check does not fire.) -/
theorem claim_C3 (ctx : CacheCtx) (st : Store) (k : BKey) (ent : Entry)
    (sd ed : String)
    (hk : k.length = 3) (hraw : backendGetRaw st k = some ent)
    (hdf : ent.df ≠ []) (hexp : entryExpired ctx ent = false) :
    (∀ e, parse_date ctx ed = some e → e < dfMin ent.df →
      (cache_get ctx st k (some sd) (some ed)).2 = none) ∧
    (∀ s, parse_date ctx sd = some s → dfMax ent.df < s →
      (cache_get ctx st k (some sd) (some ed)).2 = none) ∧
    ((∀ e, parse_date ctx ed = some e → dfMin ent.df ≤ e) →
     (∀ s, parse_date ctx sd = some s → s ≤ dfMax ent.df) →
      (cache_get ctx st k (some sd) (some ed)).2 =
        (if filter_dataframe_by_date ctx ent.df sd ed = [] then none
         else some (ent.symbol, ent.name, filter_dataframe_by_date ctx ent.df sd ed))) := by
  have hbase : (cache_get ctx st k (some sd) (some ed)) =
      get_via_backend ctx st k sd ed := by
    unfold cache_get
    simp [hk]
  have hreqE : (if strTruthy ed = true then parse_date ctx ed else none)
      = parse_date ctx ed := by
    by_cases h : strTruthy ed = true
    · simp [h]
    · simp only [Bool.not_eq_true] at h
      simp [h, parse_date]
  have hreqS : (if strTruthy sd = true then parse_date ctx sd else none)
      = parse_date ctx sd := by
    by_cases h : strTruthy sd = true
    · simp [h]
    · simp only [Bool.not_eq_true] at h
      simp [h, parse_date]
  refine ⟨?_, ?_, ?_⟩
  · intro e hpe hlt
    rw [hbase]
    unfold get_via_backend
    rw [hraw]
    simp only [hexp, Bool.false_eq_true, reduceIte, if_neg hdf]
    rw [hreqE, hreqS, hpe]
    simp [decide_eq_true hlt]
  · intro s hps hgt
    rw [hbase]
    unfold get_via_backend
    rw [hraw]
    simp only [hexp, Bool.false_eq_true, reduceIte, if_neg hdf]
    rw [hreqE, hreqS, hps]
    simp [decide_eq_true hgt]
  · intro hge hle
    rw [hbase]
    unfold get_via_backend
    rw [hraw]
    simp only [hexp, Bool.false_eq_true, reduceIte, if_neg hdf]
    rw [hreqE, hreqS]
    have hmissE : (match parse_date ctx ed with
        | some e => decide (e < dfMin ent.df)
        | none => false) = false := by
      rcases hpe : parse_date ctx ed with _ | e
      · rfl
      · exact decide_eq_false (Nat.not_lt.mpr (hge e hpe))
    have hmissS : (match parse_date ctx sd with
        | some s => decide (s > dfMax ent.df)
        | none => false) = false := by
      rcases hps : parse_date ctx sd with _ | s
      · rfl
      · exact decide_eq_false (Nat.not_lt.mpr (hle s hps))
    rw [hmissE, hmissS]
    by_cases hft : filter_dataframe_by_date ctx ent.df sd ed = [] <;> simp [hft]

/-- Witness for C3 at a concrete cached window 5..7: a request ending at 4
misses, one starting at 8 misses, and the window 6..9 returns rows 6..7. -/
theorem claim_C3_witness :
    ((cache_get witCtx witStoreC3 witKey (some ("6")) (some ("4"))).2 = none) ∧
    ((cache_get witCtx witStoreC3 witKey (some ("8")) (some ("9"))).2 = none) ∧
    ((cache_get witCtx witStoreC3 witKey (some ("6")) (some ("9"))).2 =
      some (("sh600000"), ("nm"), [(6, [60]), (7, [70])])) := by
  have hraw : backendGetRaw witStoreC3 witKey = some witEntC3 := by decide
  refine ⟨?_, ?_, ?_⟩
  · exact (claim_C3 witCtx witStoreC3 witKey _ ("6") ("4") (by decide) hraw
      (by decide) (by decide)).1 4 (by decide) (by decide)
  · exact (claim_C3 witCtx witStoreC3 witKey _ ("8") ("9") (by decide) hraw
      (by decide) (by decide)).2.1 8 (by decide) (by decide)
  · have hp9 : parse_date witCtx ("9") = some 9 := by decide
    have hp6 : parse_date witCtx ("6") = some 6 := by decide
    have h := (claim_C3 witCtx witStoreC3 witKey _ ("6") ("9") (by decide) hraw
      (by decide) (by decide)).2.2
        (by
          intro e hpe
          rw [hp9] at hpe
          injection hpe with h9
          subst h9
          decide)
        (by
          intro s hps
          rw [hp6] at hps
          injection hps with h6
          subst h6
          decide)
    rw [h]
    decide

/-- Claim C6: PersistentCache.delete, given a key with exactly three
colon-separated segments symbol:freq:fq, ignores the freq and fq segments
and always deletes the backend entry stored under symbol:day:qfq;
consequently, for every such key whose freq is not day or whose fq is not
qfq, the entry actually stored under that base_key is left unchanged by
delete. -/
theorem claim_C6 (st : Store) (s f q : String) (h : f ≠ ("day") ∨ q ≠ ("qfq")) :
    cache_delete st [s, f, q] = backendDelete st [s, ("day"), ("qfq")] ∧
    backendGetRaw (cache_delete st [s, f, q]) [s, f, q]
      = backendGetRaw st [s, f, q] := by
  have h1 : cache_delete st [s, f, q] = backendDelete st [s, ("day"), ("qfq")] := by
    unfold cache_delete extract_key_parts
    simp [get_base_key]
  refine ⟨h1, ?_⟩
  rw [h1]
  apply backendGetRaw_backendDelete_ne
  intro heq
  injection heq with e1 heq1
  injection heq1 with e2 heq2
  injection heq2 with e3 _
  rcases h with h | h
  · exact h e2
  · exact h e3

/-- Witness for C6 at a concrete store holding a `week` entry. -/
theorem claim_C6_witness :
    cache_delete bugStoreC5 [("sh600000"), ("week"), ("qfq")]
        = backendDelete bugStoreC5 [("sh600000"), ("day"), ("qfq")] ∧
    backendGetRaw (cache_delete bugStoreC5 [("sh600000"), ("week"), ("qfq")])
        [("sh600000"), ("week"), ("qfq")]
      = backendGetRaw bugStoreC5 [("sh600000"), ("week"), ("qfq")] :=
  claim_C6 bugStoreC5 ("sh600000") ("week") ("qfq") (Or.inl (by decide))

/-- Claim C5 (code-bug evaluation): with a default TTL configured and an
already-expired entry stored under the base key sh600000:week:qfq, the next
PersistentCache.get on that key returns a miss as claimed, but the entry is
not destroyed: the internal delete re-parses the three-segment base key
through _extract_key_parts, which maps it to sh600000:day:qfq, so the store
still holds the expired record under sh600000:week:qfq afterwards (a
subsequent backend get_raw returns it, where the claim requires none).  The
sibling MarketPersistentCache calls backend.delete(base_key) directly at the
same point, confirming the intent. -/
theorem claim_C5_bug_eval :
    ((cache_get witCtxTtl bugStoreC5 [("sh600000"), ("week"), ("qfq")]
        (some ("")) (some (""))).2 = none) ∧
    ((cache_get witCtxTtl bugStoreC5 [("sh600000"), ("week"), ("qfq")]
        (some ("")) (some (""))).1
      = backendDelete bugStoreC5 [("sh600000"), ("day"), ("qfq")]) ∧
    (backendGetRaw
        (cache_get witCtxTtl bugStoreC5 [("sh600000"), ("week"), ("qfq")]
          (some ("")) (some (""))).1
        [("sh600000"), ("week"), ("qfq")]
      = some bugEntC5) := by
  refine ⟨?_, ?_, ?_⟩ <;> decide

theorem backwardLoop_length_le (ctx : CacheCtx) (bk : BKey) (f : FetchFn)
    (reqE minRows : Nat) :
    ∀ fuel st df cnt,
      ((backwardLoop ctx bk f reqE minRows fuel st df cnt).2.2.2).length ≤ fuel := by
  intro fuel
  induction fuel with
  | zero => intro st df cnt; simp [backwardLoop]
  | succ n ih =>
    intro st df cnt
    unfold backwardLoop
    dsimp only
    split
    · simp
    · split
      · simp
      · split
        · simp
        · split
          · simp
          · simpa using Nat.succ_le_succ (ih _ _ _)

theorem backwardLoop_trace_mem (ctx : CacheCtx) (bk : BKey) (f : FetchFn)
    (reqE minRows : Nat) :
    ∀ fuel st df cnt t,
      t ∈ (backwardLoop ctx bk f reqE minRows fuel st df cnt).2.2.2 →
      t.phase = Phase.backward ∧ t.sdateArg = "" ∧
        t.edateArg = ctx.fmtDate (dfMin t.dfBefore - 1) := by
  intro fuel
  induction fuel with
  | zero => intro st df cnt t ht; simp [backwardLoop] at ht
  | succ n ih =>
    intro st df cnt t ht
    unfold backwardLoop at ht
    dsimp only at ht
    split at ht
    · rcases List.mem_singleton.mp ht with rfl
      exact ⟨rfl, rfl, rfl⟩
    · split at ht
      · rcases List.mem_singleton.mp ht with rfl
        exact ⟨rfl, rfl, rfl⟩
      · split at ht
        · rcases List.mem_singleton.mp ht with rfl
          exact ⟨rfl, rfl, rfl⟩
        · split at ht
          · rcases List.mem_singleton.mp ht with rfl
            exact ⟨rfl, rfl, rfl⟩
          · rcases List.mem_cons.mp ht with rfl | hmem
            · exact ⟨rfl, rfl, rfl⟩
            · exact ih _ _ _ _ hmem

theorem backwardLoop_trace_ne_nil (ctx : CacheCtx) (bk : BKey) (f : FetchFn)
    (reqE minRows : Nat) :
    ∀ fuel st df cnt, 0 < fuel →
      (backwardLoop ctx bk f reqE minRows fuel st df cnt).2.2.2 ≠ [] := by
  intro fuel
  cases fuel with
  | zero => intro st df cnt h; exact absurd h (by omega)
  | succ n =>
    intro st df cnt _
    unfold backwardLoop
    dsimp only
    split
    · simp
    · split
      · simp
      · split
        · simp
        · split
          · simp
          · simp

theorem backwardLoop_continue (ctx : CacheCtx) (bk : BKey) (f : FetchFn)
    (reqE minRows : Nat) :
    ∀ fuel st df cnt tr,
      (backwardLoop ctx bk f reqE minRows fuel st df cnt).2.2.2 = tr →
      ∀ i, (h1 : i < tr.length) → i + 1 < tr.length →
        (tr.get ⟨i, h1⟩).fetchedDf ≠ [] ∧
        ∃ df2, (tr.get ⟨i, h1⟩).dfAfter = some df2 ∧
          dfMin df2 < dfMin (tr.get ⟨i, h1⟩).dfBefore ∧
          ¬(minRows < countLe df2 reqE ∧ dfMin df2 ≤ reqE) := by
  intro fuel
  induction fuel with
  | zero =>
    intro st df cnt tr htr i h1 h2
    simp [backwardLoop] at htr
    subst htr
    simp at h1
  | succ n ih =>
    intro st df cnt tr htr i h1 h2
    unfold backwardLoop at htr
    dsimp only at htr
    split at htr
    · subst htr; simp at h2
    · split at htr
      · subst htr; simp at h2
      · split at htr
        · subst htr; simp at h2
        · split at htr
          · subst htr; simp at h2
          · subst htr
            cases i with
            | zero =>
              rename_i hfdf x st2 r heq hne hsuf
              refine ⟨hfdf, _, rfl, ?_, hsuf⟩
              exact Nat.lt_of_not_le hne
            | succ j =>
              exact ih _ _ _ _ rfl j (Nat.lt_of_succ_lt_succ h1)
                (Nat.lt_of_succ_lt_succ h2)

theorem forwardLoop_trace_phase (ctx : CacheCtx) (bk : BKey) (f : FetchFn)
    (reqE : Nat) (todayStr : String) :
    ∀ fuel st df cnt t,
      t ∈ (forwardLoop ctx bk f reqE todayStr fuel st df cnt).2.2.2 →
      t.phase = Phase.forward := by
  intro fuel
  induction fuel with
  | zero => intro st df cnt t ht; simp [forwardLoop] at ht
  | succ n ih =>
    intro st df cnt t ht
    unfold forwardLoop at ht
    dsimp only at ht
    split at ht
    · rcases List.mem_singleton.mp ht with rfl
      rfl
    · split at ht
      · rcases List.mem_singleton.mp ht with rfl
        rfl
      · split at ht
        · rcases List.mem_singleton.mp ht with rfl
          rfl
        · split at ht
          · rcases List.mem_singleton.mp ht with rfl
            rfl
          · rcases List.mem_cons.mp ht with rfl | hmem
            · rfl
            · exact ih _ _ _ _ hmem

theorem autoOneShot_bwdTrace (ctx : CacheCtx) (st : Store) (bk : BKey)
    (fetchFn : FetchFn) (cnt : Nat) (sdate edate : String) (ph : Phase)
    (reqEdate : Option Nat) :
    (autoOneShot ctx st bk fetchFn cnt sdate edate ph reqEdate).bwdTrace = [] := by
  unfold autoOneShot
  dsimp only

theorem autoOneShot_fwdTrace (ctx : CacheCtx) (st : Store) (bk : BKey)
    (fetchFn : FetchFn) (cnt : Nat) (sdate edate : String) (ph : Phase)
    (reqEdate : Option Nat) :
    (autoOneShot ctx st bk fetchFn cnt sdate edate ph reqEdate).fwdTrace = [] := by
  unfold autoOneShot
  dsimp only

theorem autoOneShot_postTrace (ctx : CacheCtx) (st : Store) (bk : BKey)
    (fetchFn : FetchFn) (cnt : Nat) (sdate edate : String) (ph : Phase)
    (reqEdate : Option Nat) :
    (autoOneShot ctx st bk fetchFn cnt sdate edate ph reqEdate).postTrace = [] := by
  unfold autoOneShot
  dsimp only

theorem autoOneShot_preTrace (ctx : CacheCtx) (st : Store) (bk : BKey)
    (fetchFn : FetchFn) (cnt : Nat) (sdate edate : String) (ph : Phase)
    (reqEdate : Option Nat) :
    (autoOneShot ctx st bk fetchFn cnt sdate edate ph reqEdate).preTrace
      = [⟨ph, sdate, edate, [], (fetchFn cnt sdate edate).2.2, none⟩] := by
  unfold autoOneShot
  dsimp only

theorem autoOneShot_audit (ctx : CacheCtx) (st : Store) (bk : BKey)
    (fetchFn : FetchFn) (cnt : Nat) (sdate edate : String) (ph : Phase)
    (reqEdate : Option Nat) :
    (autoOneShot ctx st bk fetchFn cnt sdate edate ph reqEdate).audit
      = ⟨reqEdate, false, [], false⟩ := by
  unfold autoOneShot
  dsimp only

theorem autoFinalize_preTrace (ctx : CacheCtx) (st : Store) (bk : BKey)
    (fetchFn : FetchFn) (cnt : Nat) (sdate edate : String)
    (trF trB : List TraceEntry) (audit : AutoAudit) :
    (autoFinalize ctx st bk fetchFn cnt sdate edate trF trB audit).preTrace = [] := by
  unfold autoFinalize
  split <;> rfl

theorem autoFinalize_fwdTrace (ctx : CacheCtx) (st : Store) (bk : BKey)
    (fetchFn : FetchFn) (cnt : Nat) (sdate edate : String)
    (trF trB : List TraceEntry) (audit : AutoAudit) :
    (autoFinalize ctx st bk fetchFn cnt sdate edate trF trB audit).fwdTrace = trF := by
  unfold autoFinalize
  split <;> rfl

theorem autoFinalize_bwdTrace (ctx : CacheCtx) (st : Store) (bk : BKey)
    (fetchFn : FetchFn) (cnt : Nat) (sdate edate : String)
    (trF trB : List TraceEntry) (audit : AutoAudit) :
    (autoFinalize ctx st bk fetchFn cnt sdate edate trF trB audit).bwdTrace = trB := by
  unfold autoFinalize
  split <;> rfl

theorem autoFinalize_audit (ctx : CacheCtx) (st : Store) (bk : BKey)
    (fetchFn : FetchFn) (cnt : Nat) (sdate edate : String)
    (trF trB : List TraceEntry) (audit : AutoAudit) :
    (autoFinalize ctx st bk fetchFn cnt sdate edate trF trB audit).audit = audit := by
  unfold autoFinalize
  split <;> rfl

theorem autoFinalize_postTrace_phase (ctx : CacheCtx) (st : Store) (bk : BKey)
    (fetchFn : FetchFn) (cnt : Nat) (sdate edate : String)
    (trF trB : List TraceEntry) (audit : AutoAudit) :
    ∀ t ∈ (autoFinalize ctx st bk fetchFn cnt sdate edate trF trB audit).postTrace,
      t.phase = Phase.fallback := by
  unfold autoFinalize
  split
  · simp
  · intro t ht
    rcases List.mem_singleton.mp ht with rfl
    rfl

/-- Case analysis of a `get_price_auto_merge` run: either the backward loop
did not fire (and, when the trigger was evaluated, its condition was false),
or the backward trace is exactly a `backwardLoop` run with `maxIter` fuel
started on the audited frame, with the trigger condition true. -/
theorem auto_backward_cases (ctx : CacheCtx) (st0 : Store)
    (symbol sdate edate freq fq : String) (fetchFn : FetchFn)
    (minRows maxIter : Nat) :
    ((get_price_auto_merge ctx st0 symbol sdate edate freq fq fetchFn minRows
        maxIter).bwdTrace = [] ∧
     (get_price_auto_merge ctx st0 symbol sdate edate freq fq fetchFn minRows
        maxIter).audit.needBackward = false ∧
     ((get_price_auto_merge ctx st0 symbol sdate edate freq fq fetchFn minRows
        maxIter).audit.backwardChecked = true →
       ∃ e, (get_price_auto_merge ctx st0 symbol sdate edate freq fq fetchFn minRows
          maxIter).audit.reqEdate = some e ∧
         (decide (e < dfMin (get_price_auto_merge ctx st0 symbol sdate edate freq fq
            fetchFn minRows maxIter).audit.dfAtBackwardCheck)
           || decide (countLe (get_price_auto_merge ctx st0 symbol sdate edate freq fq
            fetchFn minRows maxIter).audit.dfAtBackwardCheck e ≤ minRows)) = false))
  ∨ (∃ stB cntB e,
      (get_price_auto_merge ctx st0 symbol sdate edate freq fq fetchFn minRows
        maxIter).audit.reqEdate = some e ∧
      (get_price_auto_merge ctx st0 symbol sdate edate freq fq fetchFn minRows
        maxIter).audit.backwardChecked = true ∧
      (get_price_auto_merge ctx st0 symbol sdate edate freq fq fetchFn minRows
        maxIter).audit.needBackward = true ∧
      (decide (e < dfMin (get_price_auto_merge ctx st0 symbol sdate edate freq fq
        fetchFn minRows maxIter).audit.dfAtBackwardCheck)
        || decide (countLe (get_price_auto_merge ctx st0 symbol sdate edate freq fq
        fetchFn minRows maxIter).audit.dfAtBackwardCheck e ≤ minRows)) = true ∧
      (get_price_auto_merge ctx st0 symbol sdate edate freq fq fetchFn minRows
        maxIter).bwdTrace
        = (backwardLoop ctx (get_base_key symbol freq fq) fetchFn e minRows maxIter
            stB
            (get_price_auto_merge ctx st0 symbol sdate edate freq fq fetchFn minRows
              maxIter).audit.dfAtBackwardCheck
            cntB).2.2.2) := by
  unfold get_price_auto_merge
  dsimp only
  split
  · left
    rw [autoOneShot_bwdTrace, autoOneShot_audit]
    exact ⟨rfl, rfl, by intro h; cases h⟩
  · split
    · left
      rw [autoOneShot_bwdTrace, autoOneShot_audit]
      exact ⟨rfl, rfl, by intro h; cases h⟩
    · split
      · left
        rw [autoFinalize_bwdTrace, autoFinalize_audit]
        exact ⟨rfl, rfl, by intro h; cases h⟩
      · rename_i e heqE
        split
        · split
          · rename_i hneed
            right
            rw [autoFinalize_bwdTrace, autoFinalize_audit]
            exact ⟨_, _, e, rfl, rfl, rfl, hneed, rfl⟩
          · rename_i hneed
            left
            rw [autoFinalize_bwdTrace, autoFinalize_audit]
            refine ⟨rfl, rfl, fun _ => ⟨e, rfl, ?_⟩⟩
            simpa using hneed
        · split
          · rename_i hneed
            right
            rw [autoFinalize_bwdTrace, autoFinalize_audit]
            exact ⟨_, _, e, rfl, rfl, rfl, hneed, rfl⟩
          · rename_i hneed
            left
            rw [autoFinalize_bwdTrace, autoFinalize_audit]
            refine ⟨rfl, rfl, fun _ => ⟨e, rfl, ?_⟩⟩
            simpa using hneed

/-- Phase tags of the four trace segments of a run. -/
theorem auto_phases (ctx : CacheCtx) (st0 : Store)
    (symbol sdate edate freq fq : String) (fetchFn : FetchFn)
    (minRows maxIter : Nat) :
    (∀ t ∈ (get_price_auto_merge ctx st0 symbol sdate edate freq fq fetchFn minRows
        maxIter).preTrace, t.phase = Phase.initial) ∧
    (∀ t ∈ (get_price_auto_merge ctx st0 symbol sdate edate freq fq fetchFn minRows
        maxIter).fwdTrace, t.phase = Phase.forward) ∧
    (∀ t ∈ (get_price_auto_merge ctx st0 symbol sdate edate freq fq fetchFn minRows
        maxIter).bwdTrace, t.phase = Phase.backward) ∧
    (∀ t ∈ (get_price_auto_merge ctx st0 symbol sdate edate freq fq fetchFn minRows
        maxIter).postTrace, t.phase = Phase.fallback) := by
  unfold get_price_auto_merge
  dsimp only
  split
  · rw [autoOneShot_preTrace, autoOneShot_fwdTrace, autoOneShot_bwdTrace,
      autoOneShot_postTrace]
    refine ⟨?_, by simp, by simp, by simp⟩
    intro t ht
    rcases List.mem_singleton.mp ht with rfl
    rfl
  · split
    · rw [autoOneShot_preTrace, autoOneShot_fwdTrace, autoOneShot_bwdTrace,
        autoOneShot_postTrace]
      refine ⟨?_, by simp, by simp, by simp⟩
      intro t ht
      rcases List.mem_singleton.mp ht with rfl
      rfl
    · split
      · rw [autoFinalize_preTrace, autoFinalize_fwdTrace, autoFinalize_bwdTrace]
        exact ⟨by simp, by simp, by simp,
          autoFinalize_postTrace_phase _ _ _ _ _ _ _ _ _ _⟩
      · rename_i e heqE
        split
        · split
          · rw [autoFinalize_preTrace, autoFinalize_fwdTrace, autoFinalize_bwdTrace]
            refine ⟨by simp, ?_, ?_, autoFinalize_postTrace_phase _ _ _ _ _ _ _ _ _ _⟩
            · intro t ht
              exact forwardLoop_trace_phase _ _ _ _ _ _ _ _ _ _ ht
            · intro t ht
              exact (backwardLoop_trace_mem _ _ _ _ _ _ _ _ _ _ ht).1
          · rw [autoFinalize_preTrace, autoFinalize_fwdTrace, autoFinalize_bwdTrace]
            refine ⟨by simp, ?_, by simp,
              autoFinalize_postTrace_phase _ _ _ _ _ _ _ _ _ _⟩
            intro t ht
            exact forwardLoop_trace_phase _ _ _ _ _ _ _ _ _ _ ht
        · split
          · rw [autoFinalize_preTrace, autoFinalize_fwdTrace, autoFinalize_bwdTrace]
            refine ⟨by simp, by simp, ?_,
              autoFinalize_postTrace_phase _ _ _ _ _ _ _ _ _ _⟩
            intro t ht
            exact (backwardLoop_trace_mem _ _ _ _ _ _ _ _ _ _ ht).1
          · rw [autoFinalize_preTrace, autoFinalize_fwdTrace, autoFinalize_bwdTrace]
            exact ⟨by simp, by simp, by simp,
              autoFinalize_postTrace_phase _ _ _ _ _ _ _ _ _ _⟩

/-- In the chronological trace, the backward-tagged calls are exactly the
`bwdTrace` segment. -/
theorem auto_trace_filter_backward (ctx : CacheCtx) (st0 : Store)
    (symbol sdate edate freq fq : String) (fetchFn : FetchFn)
    (minRows maxIter : Nat) :
    ((get_price_auto_merge ctx st0 symbol sdate edate freq fq fetchFn minRows
        maxIter).trace).filter (fun t => t.phase == Phase.backward)
      = (get_price_auto_merge ctx st0 symbol sdate edate freq fq fetchFn minRows
        maxIter).bwdTrace := by
  rcases auto_phases ctx st0 symbol sdate edate freq fq fetchFn minRows maxIter
    with ⟨hp, hf, hb, hpost⟩
  unfold AutoResult.trace
  rw [List.filter_append, List.filter_append, List.filter_append]
  rw [List.filter_eq_nil_iff.mpr (fun t ht => by simp [hp t ht]),
    List.filter_eq_nil_iff.mpr (fun t ht => by simp [hf t ht]),
    List.filter_eq_self.mpr (fun t ht => by simp [hb t ht]),
    List.filter_eq_nil_iff.mpr (fun t ht => by simp [hpost t ht])]
  simp

/-- Claim C4: In get_price_auto_merge, whenever a request end date is given
and either it is earlier than the cached series' earliest date or the number
of cached rows dated at or before it is at most min_rows_before_edate, the
backward-extension loop runs: each iteration fetches with start date ""
and end date equal to the current earliest cached date minus one day, the
loop executes at most max_extend_iterations iterations, and it stops early
when the fetch is empty, when the earliest date fails to retreat, or as soon
as the row count at or before the request end date exceeds
min_rows_before_edate while the earliest date is at or before the request
end date.  (The trigger is evaluated, as in the source, on the cached series
after the forward phase, recorded in the run's audit; the stop conditions
are stated contrapositively: every non-final iteration had a non-empty
fetch and a reload whose earliest date strictly retreated with the
sufficiency condition still false.) -/
theorem claim_C4 (ctx : CacheCtx) (st0 : Store)
    (symbol sdate edate freq fq : String) (fetchFn : FetchFn)
    (minRows maxIter : Nat) :
    (((get_price_auto_merge ctx st0 symbol sdate edate freq fq fetchFn minRows
        maxIter).trace).filter (fun t => t.phase == Phase.backward)
      = (get_price_auto_merge ctx st0 symbol sdate edate freq fq fetchFn minRows
        maxIter).bwdTrace) ∧
    (((get_price_auto_merge ctx st0 symbol sdate edate freq fq fetchFn minRows
        maxIter).bwdTrace).length ≤ maxIter) ∧
    (∀ t ∈ (get_price_auto_merge ctx st0 symbol sdate edate freq fq fetchFn minRows
        maxIter).bwdTrace,
      t.sdateArg = "" ∧ t.edateArg = ctx.fmtDate (dfMin t.dfBefore - 1)) ∧
    ((get_price_auto_merge ctx st0 symbol sdate edate freq fq fetchFn minRows
        maxIter).audit.backwardChecked = true →
      ((get_price_auto_merge ctx st0 symbol sdate edate freq fq fetchFn minRows
          maxIter).audit.needBackward = true ↔
        ∃ e, (get_price_auto_merge ctx st0 symbol sdate edate freq fq fetchFn minRows
            maxIter).audit.reqEdate = some e ∧
          (e < dfMin (get_price_auto_merge ctx st0 symbol sdate edate freq fq fetchFn
              minRows maxIter).audit.dfAtBackwardCheck ∨
           countLe (get_price_auto_merge ctx st0 symbol sdate edate freq fq fetchFn
              minRows maxIter).audit.dfAtBackwardCheck e ≤ minRows))) ∧
    ((get_price_auto_merge ctx st0 symbol sdate edate freq fq fetchFn minRows
        maxIter).audit.needBackward = true → 0 < maxIter →
      (get_price_auto_merge ctx st0 symbol sdate edate freq fq fetchFn minRows
        maxIter).bwdTrace ≠ []) ∧
    (∀ e, (get_price_auto_merge ctx st0 symbol sdate edate freq fq fetchFn minRows
        maxIter).audit.reqEdate = some e →
      ∀ i, (h1 : i < ((get_price_auto_merge ctx st0 symbol sdate edate freq fq fetchFn
          minRows maxIter).bwdTrace).length) →
        i + 1 < ((get_price_auto_merge ctx st0 symbol sdate edate freq fq fetchFn
          minRows maxIter).bwdTrace).length →
        (((get_price_auto_merge ctx st0 symbol sdate edate freq fq fetchFn minRows
            maxIter).bwdTrace).get ⟨i, h1⟩).fetchedDf ≠ [] ∧
        ∃ df2, (((get_price_auto_merge ctx st0 symbol sdate edate freq fq fetchFn
            minRows maxIter).bwdTrace).get ⟨i, h1⟩).dfAfter = some df2 ∧
          dfMin df2 < dfMin (((get_price_auto_merge ctx st0 symbol sdate edate freq fq
            fetchFn minRows maxIter).bwdTrace).get ⟨i, h1⟩).dfBefore ∧
          ¬(minRows < countLe df2 e ∧ dfMin df2 ≤ e)) := by
  refine ⟨auto_trace_filter_backward ctx st0 symbol sdate edate freq fq fetchFn minRows
    maxIter, ?_⟩
  rcases auto_backward_cases ctx st0 symbol sdate edate freq fq fetchFn minRows maxIter
    with ⟨hnil, hnb, himp⟩ | ⟨stB, cntB, e0, hre, hbc, hnb, hcond, htr⟩
  · refine ⟨?_, ?_, ?_, ?_, ?_⟩
    · rw [hnil]
      simp
    · rw [hnil]
      simp
    · intro hbc
      constructor
      · intro hq
        rw [hnb] at hq
        cases hq
      · rintro ⟨e, hre2, hor⟩
        rcases himp hbc with ⟨e1, hre1, hfalse⟩
        have he : e = e1 := by
          rw [hre2] at hre1
          exact Option.some.inj hre1
        subst he
        have hT : (decide (e < dfMin (get_price_auto_merge ctx st0 symbol sdate edate
            freq fq fetchFn minRows maxIter).audit.dfAtBackwardCheck)
            || decide (countLe (get_price_auto_merge ctx st0 symbol sdate edate freq fq
            fetchFn minRows maxIter).audit.dfAtBackwardCheck e ≤ minRows)) = true := by
          rcases hor with hor | hor <;> simp [hor]
        rw [hfalse] at hT
        cases hT
    · intro hq
      rw [hnb] at hq
      cases hq
    · intro e he i h1
      rw [hnil] at h1
      simp at h1
  · refine ⟨?_, ?_, ?_, ?_, ?_⟩
    · rw [htr]
      exact backwardLoop_length_le _ _ _ _ _ _ _ _ _
    · intro t ht
      rw [htr] at ht
      exact (backwardLoop_trace_mem _ _ _ _ _ _ _ _ _ _ ht).2
    · intro _
      constructor
      · intro _
        refine ⟨e0, hre, ?_⟩
        simpa using hcond
      · intro _
        exact hnb
    · intro _ hmax
      rw [htr]
      exact backwardLoop_trace_ne_nil _ _ _ _ _ _ _ _ _ hmax
    · intro e he i h1 h2
      have he0 : e = e0 := by
        rw [he] at hre
        exact Option.some.inj hre
      subst he0
      exact backwardLoop_continue ctx (get_base_key symbol freq fq) fetchFn e minRows
        maxIter stB _ cntB _ htr.symm i h1 h2

/-- Witness for C4: a concrete run in which the backward loop fires once. -/
theorem claim_C4_witness :
    ((get_price_auto_merge witCtx witStoreAuto ("sh600000") ("") ("12") ("day") ("qfq")
        witFetch 2 15).bwdTrace).length ≤ 15 ∧
    (get_price_auto_merge witCtx witStoreAuto ("sh600000") ("") ("12") ("day") ("qfq")
        witFetch 2 15).bwdTrace ≠ [] :=
  ⟨(claim_C4 witCtx witStoreAuto ("sh600000") ("") ("12") ("day") ("qfq")
      witFetch 2 15).2.1,
   (claim_C4 witCtx witStoreAuto ("sh600000") ("") ("12") ("day") ("qfq")
      witFetch 2 15).2.2.2.2.1 (by decide) (by decide)⟩

theorem forward_before_backward (l A B : List TraceEntry) (hl : l = A ++ B)
    (hA : ∀ t ∈ A, t.phase ≠ Phase.backward) (hB : ∀ t ∈ B, t.phase ≠ Phase.forward)
    (i j : Nat) (hi : i < l.length) (hj : j < l.length)
    (hfi : (l.get ⟨i, hi⟩).phase = Phase.forward)
    (hbj : (l.get ⟨j, hj⟩).phase = Phase.backward) : i < j := by
  subst hl
  have hiA : i < A.length := by
    by_contra hge
    push_neg at hge
    rw [List.get_eq_getElem] at hfi
    rw [List.getElem_append_right hge] at hfi
    exact hB _ (List.getElem_mem _) hfi
  have hjA : A.length ≤ j := by
    by_contra hlt
    push_neg at hlt
    rw [List.get_eq_getElem] at hbj
    rw [List.getElem_append_left hlt] at hbj
    exact hA _ (List.getElem_mem _) hbj
  omega

/-- Claim C9: Within one call to get_price_auto_merge, every
forward-extension fetch occurs before any backward-extension fetch in the
chronological trace: a forward-tagged call's position strictly precedes
every backward-tagged call's position. -/
theorem claim_C9 (ctx : CacheCtx) (st0 : Store)
    (symbol sdate edate freq fq : String) (fetchFn : FetchFn)
    (minRows maxIter : Nat) (i j : Nat)
    (hi : i < ((get_price_auto_merge ctx st0 symbol sdate edate freq fq fetchFn minRows
      maxIter).trace).length)
    (hj : j < ((get_price_auto_merge ctx st0 symbol sdate edate freq fq fetchFn minRows
      maxIter).trace).length)
    (hf : (((get_price_auto_merge ctx st0 symbol sdate edate freq fq fetchFn minRows
      maxIter).trace).get ⟨i, hi⟩).phase = Phase.forward)
    (hb : (((get_price_auto_merge ctx st0 symbol sdate edate freq fq fetchFn minRows
      maxIter).trace).get ⟨j, hj⟩).phase = Phase.backward) : i < j := by
  rcases auto_phases ctx st0 symbol sdate edate freq fq fetchFn minRows maxIter
    with ⟨hp, hfw, hbw, hpost⟩
  refine forward_before_backward _
    ((get_price_auto_merge ctx st0 symbol sdate edate freq fq fetchFn minRows
      maxIter).preTrace ++
     (get_price_auto_merge ctx st0 symbol sdate edate freq fq fetchFn minRows
      maxIter).fwdTrace)
    ((get_price_auto_merge ctx st0 symbol sdate edate freq fq fetchFn minRows
      maxIter).bwdTrace ++
     (get_price_auto_merge ctx st0 symbol sdate edate freq fq fetchFn minRows
      maxIter).postTrace)
    ?_ ?_ ?_ i j hi hj hf hb
  · unfold AutoResult.trace
    simp
  · intro t ht
    rcases List.mem_append.mp ht with ht | ht
    · rw [hp t ht]
      intro hc
      cases hc
    · rw [hfw t ht]
      intro hc
      cases hc
  · intro t ht
    rcases List.mem_append.mp ht with ht | ht
    · rw [hbw t ht]
      intro hc
      cases hc
    · rw [hpost t ht]
      intro hc
      cases hc

/-- Witness for C9: the concrete run has a forward call at position 0 and a
backward call at position 1, and the theorem places 0 before 1. -/
theorem claim_C9_witness :
    2 ≤ (((get_price_auto_merge witCtx witStoreAuto ("sh600000") ("") ("12") ("day")
      ("qfq") witFetch 2 15).trace)).length ∧ (0 : Nat) < 1 :=
  ⟨by decide,
   claim_C9 witCtx witStoreAuto ("sh600000") ("") ("12") ("day") ("qfq") witFetch 2 15
     0 1 (by decide) (by decide) (by decide) (by decide)⟩

theorem usScore_nonempty {df : USDF} (h : df ≠ []) :
    usScore df = (df.length, (df.headD (("", []))).1) := by
  simp [usScore, h]

theorem pyMaxBy_pair {α : Type} (key : α → Nat × String) (a b : α) :
    pyMaxBy key [a, b] = some (if scoreLt (key a) (key b) then b else a) := rfl

/-- Counterexample to C7 as stated: both candidates return the same number
of rows (three each) and the `.OQ` candidate's first date 2024-01-01 is
strictly earlier than the `.N` candidate's 2024-01-02, yet the adapter
returns the `.N` candidate — the tie is broken toward the LATER first date,
not the earlier one. -/
theorem claim_C7_counterexample :
    us_fetch_price_data cexUsFetch ("usTST")
        = .ok (("usTST.N"), ("nameN"), cexDfN) ∧
    cexDfOQ.length = cexDfN.length ∧
    pyStrLt (usScore cexDfOQ).2 (usScore cexDfN).2 = true ∧
    (("usTST.N") : String) ≠ ("usTST.OQ") :=
  ⟨rfl, rfl, by decide, by decide⟩

/-- Claim C7, amended: when a US symbol lacks a venue suffix, the adapter
fetches both the .OQ and the .N candidate; among candidates with at least 3
rows, the one with more rows wins; when both have the same number of rows
the candidate whose first date string is LATER is selected (on a full tie
the .OQ candidate, listed first, wins), and the winning suffixed symbol
becomes the normalized symbol of the returned tuple. -/
theorem claim_C7_amended (fetchParse : USFetch) (symbol : String)
    (nameOQ nameN : String) (dfOQ dfN : USDF)
    (hs : (strEndsWith symbol (".OQ") || strEndsWith symbol (".N")
      || strEndsWith symbol (".AM")) = false)
    (hOQ : fetchParse (symbol ++ (".OQ")) = some (nameOQ, dfOQ))
    (hN : fetchParse (symbol ++ (".N")) = some (nameN, dfN))
    (h3OQ : 3 ≤ dfOQ.length) (h3N : 3 ≤ dfN.length) :
    (dfN.length < dfOQ.length →
      us_fetch_price_data fetchParse symbol
        = .ok (symbol ++ (".OQ"), nameOQ, dfOQ)) ∧
    (dfOQ.length < dfN.length →
      us_fetch_price_data fetchParse symbol
        = .ok (symbol ++ (".N"), nameN, dfN)) ∧
    (dfOQ.length = dfN.length →
      pyStrLt (usScore dfOQ).2 (usScore dfN).2 = true →
      us_fetch_price_data fetchParse symbol
        = .ok (symbol ++ (".N"), nameN, dfN)) ∧
    (dfOQ.length = dfN.length →
      pyStrLt (usScore dfOQ).2 (usScore dfN).2 = false →
      us_fetch_price_data fetchParse symbol
        = .ok (symbol ++ (".OQ"), nameOQ, dfOQ)) := by
  have hneOQ : dfOQ ≠ [] := by
    intro h
    rw [h] at h3OQ
    simp at h3OQ
  have hneN : dfN ≠ [] := by
    intro h
    rw [h] at h3N
    simp at h3N
  have hcand : ([(".OQ"), (".N")].filterMap fun suffix =>
      match fetchParse (symbol ++ suffix) with
      | none => none
      | some nd => if nd.2.length < 3 then none
          else some (symbol ++ suffix, nd.1, nd.2))
      = [(symbol ++ (".OQ"), nameOQ, dfOQ), (symbol ++ (".N"), nameN, dfN)] := by
    simp [List.filterMap, hOQ, hN, Nat.not_lt.mpr h3OQ, Nat.not_lt.mpr h3N]
  have hbase : us_fetch_price_data fetchParse symbol
      = .ok (if scoreLt (usScore dfOQ) (usScore dfN)
          then (symbol ++ (".N"), nameN, dfN)
          else (symbol ++ (".OQ"), nameOQ, dfOQ)) := by
    unfold us_fetch_price_data
    rw [if_neg (by simp [hs])]
    dsimp only
    rw [hcand, pyMaxBy_pair]
  rw [hbase]
  refine ⟨?_, ?_, ?_, ?_⟩
  · intro hlt
    rw [if_neg ?_]
    rw [usScore_nonempty hneOQ, usScore_nonempty hneN]
    simp [scoreLt]
    omega
  · intro hlt
    rw [if_pos ?_]
    rw [usScore_nonempty hneOQ, usScore_nonempty hneN]
    simp [scoreLt]
    omega
  · intro heq hidx
    rw [usScore_nonempty hneOQ, usScore_nonempty hneN] at hidx
    rw [if_pos ?_]
    rw [usScore_nonempty hneOQ, usScore_nonempty hneN]
    simp only [scoreLt, heq]
    simp
    simpa using hidx
  · intro heq hidx
    rw [usScore_nonempty hneOQ, usScore_nonempty hneN] at hidx
    rw [if_neg ?_]
    rw [usScore_nonempty hneOQ, usScore_nonempty hneN]
    simp only [scoreLt, heq]
    simp
    simpa using hidx

/-- Witness for the amended C7 at the concrete tie: equal row counts, the
.OQ candidate first, and the .N candidate wins by later first date. -/
theorem claim_C7_amended_witness :
    us_fetch_price_data cexUsFetch ("usTST")
      = .ok (("usTST") ++ (".N"), ("nameN"), cexDfN) :=
  (claim_C7_amended cexUsFetch ("usTST") ("nameOQ") ("nameN") cexDfOQ cexDfN
    (by decide) (by decide) (by decide) (by decide) (by decide)).2.2.1
    (by decide) (by decide)

theorem httpGetGo_all_fail (retry delay : Nat) (responses : Nat → Option String)
    (hall : ∀ i, responses i = none) :
    ∀ fuel attempt, attempt + fuel = retry → 0 < fuel →
      httpGetGo retry delay responses attempt fuel
        = ((List.range' attempt fuel).flatMap fun i =>
            if i = retry - 1 then [HttpEvent.attemptCall i]
            else [HttpEvent.attemptCall i, HttpEvent.sleepFor (delay * (i + 1))],
           HttpOutcome.raised RaisedKind.httpxHTTPError) := by
  intro fuel
  induction fuel with
  | zero => intro attempt h h0; exact absurd h0 (by omega)
  | succ n ih =>
    intro attempt h h0
    unfold httpGetGo
    rw [hall attempt]
    by_cases hlast : attempt = retry - 1
    · have hn : n = 0 := by omega
      subst hn
      rw [if_pos hlast]
      simp [List.range', hlast]
    · rw [if_neg hlast]
      rw [ih (attempt + 1) (by omega) (by omega)]
      simp [List.range', hlast]

/-- Counterexample to C10 as stated: with three failing attempts the final
failure re-raises the underlying httpx.HTTPError; no NetworkError is ever
raised by HTTPClient.get. -/
theorem claim_C10_counterexample :
    (http_client_get 3 2 (fun _ => none)).2
        = HttpOutcome.raised RaisedKind.httpxHTTPError ∧
    (http_client_get 3 2 (fun _ => none)).2
        ≠ HttpOutcome.raised RaisedKind.networkError :=
  ⟨rfl, by decide⟩

/-- Claim C10, amended: for every URL whose every attempt fails,
HTTPClient.get performs exactly retry_times attempts, sleeping
retry_delay x attempt between consecutive attempts (linear back-off), and
after the final failed attempt re-raises the underlying httpx.HTTPError to
the caller (not the library's NetworkError, which HTTPClient.get never
raises). -/
theorem claim_C10_amended (retry delay : Nat) (responses : Nat → Option String)
    (h0 : 0 < retry) (hall : ∀ i, responses i = none) :
    http_client_get retry delay responses
      = (httpFailTrace retry delay,
         HttpOutcome.raised RaisedKind.httpxHTTPError) := by
  unfold http_client_get httpFailTrace
  rw [httpGetGo_all_fail retry delay responses hall retry 0 (by omega) h0]
  rw [List.range_eq_range']

/-- Witness for the amended C10 with three attempts and delay two. -/
theorem claim_C10_amended_witness :
    http_client_get 3 2 (fun _ => none)
      = (httpFailTrace 3 2, HttpOutcome.raised RaisedKind.httpxHTTPError) :=
  claim_C10_amended 3 2 (fun _ => none) (by decide) (fun _ => rfl)


theorem digitChar_toNat : ∀ n, n < 10 → (Nat.digitChar n).toNat = 48 + n := by decide

theorem isDigitCh_digitChar : ∀ n, n < 10 → isDigitCh (Nat.digitChar n) = true := by decide

theorem chVal_digitChar : ∀ n, n < 10 → chVal (Nat.digitChar n) = n := by decide

theorem monthAlts_pad2 (m : Nat) (rest : List Char) (h1 : 1 ≤ m) (h2 : m ≤ 12) :
    ∃ tl, monthAlts (pad2list m ++ rest) = (m, rest) :: tl := by
  interval_cases m <;> exact ⟨_, rfl⟩

theorem dayAlts_pad2 (d : Nat) (rest : List Char) (h1 : 1 ≤ d) (h2 : d ≤ 31) :
    ∃ tl, dayAlts (pad2list d ++ rest) = (d, rest) :: tl := by
  interval_cases d <;> exact ⟨_, rfl⟩

theorem eatSep_self (sep : Option Char) (rest : List Char) :
    eatSep sep (sepList sep ++ rest) = some rest := by
  cases sep <;> simp [eatSep, sepList]

theorem daysInMonth_le31 (y m : Nat) : daysInMonth y m ≤ 31 := by
  unfold daysInMonth
  split
  · split <;> omega
  · split <;> omega

theorem validDate_decode {y m d : Nat} (hv : validDate y m d = true) :
    1 ≤ y ∧ 1 ≤ m ∧ m ≤ 12 ∧ 1 ≤ d ∧ d ≤ daysInMonth y m := by
  simp [validDate] at hv
  refine ⟨?_, ?_, ?_, ?_, ?_⟩ <;> tauto

theorem strptimeYmd_render (sep : Option Char) (y m d : Nat)
    (hylt : y < 10000) (hv : validDate y m d = true) :
    strptimeYmd sep (specRenderDate sep y m d) = some (y, m, d) := by
  obtain ⟨hy1, hm1, hm12, hd1, hdM⟩ := validDate_decode hv
  have hd31 : d ≤ 31 := Nat.le_trans hdM (daysInMonth_le31 y m)
  obtain ⟨tlm, hma⟩ := monthAlts_pad2 m (sepList sep ++ pad2list d) hm1 hm12
  obtain ⟨tld, hda⟩ := dayAlts_pad2 d [] hd1 hd31
  rw [List.append_nil] at hda
  simp only [pad2list, List.cons_append, List.nil_append, List.append_assoc] at hma hda
  have hA : isDigitCh (Nat.digitChar (y / 100 / 10 % 10)) = true :=
    isDigitCh_digitChar _ (by omega)
  have hB : isDigitCh (Nat.digitChar (y / 100 % 10)) = true :=
    isDigitCh_digitChar _ (by omega)
  have hC : isDigitCh (Nat.digitChar (y % 100 / 10 % 10)) = true :=
    isDigitCh_digitChar _ (by omega)
  have hD : isDigitCh (Nat.digitChar (y % 100 % 10)) = true :=
    isDigitCh_digitChar _ (by omega)
  have hyrec : 1000 * chVal (Nat.digitChar (y / 100 / 10 % 10))
      + 100 * chVal (Nat.digitChar (y / 100 % 10))
      + 10 * chVal (Nat.digitChar (y % 100 / 10 % 10))
      + chVal (Nat.digitChar (y % 100 % 10)) = y := by
    rw [chVal_digitChar _ (by omega), chVal_digitChar _ (by omega),
      chVal_digitChar _ (by omega), chVal_digitChar _ (by omega)]
    omega
  unfold strptimeYmd specRenderDate
  simp only [pad2list, String.toList]
  simp only [List.cons_append, List.nil_append, List.append_assoc]
  simp only [hA, hB, hC, hD, Bool.and_self, Bool.true_and, if_true]
  rw [hyrec]
  rw [eatSep_self]
  dsimp only
  rw [hma, List.findSome?_cons]
  dsimp only
  rw [eatSep_self]
  dsimp only
  rw [hda, List.findSome?_cons]
  simp [hv]

theorem digitChar_beq_false : ∀ n, n < 10 → ∀ c : Char,
    c.toNat < 48 ∨ 57 < c.toNat → (Nat.digitChar n == c) = false := by
  intro n hn c hc
  have ht := digitChar_toNat n hn
  rcases Bool.eq_false_or_eq_true (Nat.digitChar n == c) with h | h
  · exfalso
    have heq : Nat.digitChar n = c := eq_of_beq h
    rw [heq] at ht
    omega
  · exact h

theorem matchesDashYmd_render_dash (y m d : Nat) :
    matchesDashYmd (specRenderDate (some '-') y m d) = true := by
  unfold matchesDashYmd specRenderDate
  simp only [pad2list, sepList, String.toList, List.cons_append, List.nil_append]
  simp [isDigitCh_digitChar _ (Nat.mod_lt _ (by omega))]

theorem matchesDashYmd_render_sep (c0 : Char) (hc : (c0 == '-') = false)
    (y m d : Nat) : matchesDashYmd (specRenderDate (some c0) y m d) = false := by
  unfold matchesDashYmd specRenderDate
  simp only [pad2list, sepList, String.toList, List.cons_append, List.nil_append]
  simp [hc]

theorem matchesDashYmd_render_compact (y m d : Nat) :
    matchesDashYmd (specRenderDate none y m d) = false := rfl

theorem strptimeYmd_sep_mismatch (c c0 : Char) (hc : (c0 == c) = false)
    (y m d : Nat) :
    strptimeYmd (some c) (specRenderDate (some c0) y m d) = none := by
  unfold strptimeYmd specRenderDate
  simp only [pad2list, sepList, String.toList, List.cons_append, List.nil_append,
    List.append_assoc]
  by_cases hdig : (isDigitCh (Nat.digitChar (y / 100 / 10 % 10)) &&
      (isDigitCh (Nat.digitChar (y / 100 % 10)) &&
      (isDigitCh (Nat.digitChar (y % 100 / 10 % 10)) &&
      isDigitCh (Nat.digitChar (y % 100 % 10))))) = true
  · simp only [eatSep, hc, if_neg]
    simp [hc]
  · simp [eatSep, hc]

theorem strptimeYmd_slash_on_compact (y m d : Nat) :
    strptimeYmd (some '/') (specRenderDate none y m d) = none := by
  unfold strptimeYmd specRenderDate
  simp only [pad2list, sepList, String.toList, List.cons_append, List.nil_append,
    List.append_assoc]
  have hm : (Nat.digitChar (m / 10 % 10) == '/') = false :=
    digitChar_beq_false _ (by omega) _ (by decide)
  simp [eatSep, hm]

theorem monthAlts_head_bad (c0 : Char) (cs : List Char)
    (h1 : (c0 == '1') = false) (h0 : (c0 == '0') = false)
    (h3 : (49 ≤ c0.toNat && c0.toNat ≤ 57) = false) :
    monthAlts (c0 :: cs) = [] := by
  cases cs <;> simp [monthAlts, h1, h0, h3]

theorem strptimeYmd_compact_on_sep (c0 : Char)
    (h1 : (c0 == '1') = false) (h0 : (c0 == '0') = false)
    (h3 : (49 ≤ c0.toNat && c0.toNat ≤ 57) = false) (y m d : Nat) :
    strptimeYmd none (specRenderDate (some c0) y m d) = none := by
  unfold strptimeYmd specRenderDate
  simp only [pad2list, sepList, String.toList, List.cons_append, List.nil_append,
    List.append_assoc]
  simp [eatSep, monthAlts_head_bad c0 _ h1 h0 h3]

theorem natDigitsAux_small (fuel n : Nat) (hf : 0 < fuel) (hn : n < 10) :
    natDigitsAux fuel n = [Nat.digitChar n] := by
  cases fuel with
  | zero => exact absurd hf (by omega)
  | succ k => simp [natDigitsAux, hn]

theorem natDigitsAux_step (fuel n : Nat) (hf : 0 < fuel) (hn : ¬ n < 10) :
    natDigitsAux fuel n = natDigitsAux (fuel - 1) (n / 10) ++ [Nat.digitChar (n % 10)] := by
  cases fuel with
  | zero => exact absurd hf (by omega)
  | succ k => simp [natDigitsAux, hn]

theorem decRepr_four (y : Nat) (h1 : 1000 ≤ y) (h2 : y ≤ 9999) :
    decRepr y = ⟨[Nat.digitChar (y / 1000), Nat.digitChar (y / 100 % 10),
      Nat.digitChar (y / 10 % 10), Nat.digitChar (y % 10)]⟩ := by
  unfold decRepr
  rw [natDigitsAux_step (y + 1) y (by omega) (by omega)]
  rw [natDigitsAux_step (y + 1 - 1) (y / 10) (by omega) (by omega)]
  rw [natDigitsAux_step (y + 1 - 1 - 1) (y / 10 / 10) (by omega) (by
    rw [Nat.div_div_eq_div_mul]
    omega)]
  rw [natDigitsAux_small (y + 1 - 1 - 1 - 1) (y / 10 / 10 / 10) (by omega) (by
    rw [Nat.div_div_eq_div_mul, Nat.div_div_eq_div_mul]
    omega)]
  rw [Nat.div_div_eq_div_mul, Nat.div_div_eq_div_mul]
  norm_num
  rw [show y / 10 % 10 = y / 10 % 10 from rfl]
  congr 1
  have e1 : y / 100 / 10 = y / 1000 := by
    rw [Nat.div_div_eq_div_mul]
  have e2 : y / 10 / 10 = y / 100 := by
    rw [Nat.div_div_eq_div_mul]
  simp [e1, e2]

theorem specRenderDate_ne_empty (sep : Option Char) (y m d : Nat) :
    specRenderDate sep y m d ≠ "" := by
  unfold specRenderDate
  intro h
  have hd := congrArg String.data h
  simp [pad2list] at hd

theorem fmtYmdDash_eq_render (y m d : Nat) (h1 : 1000 ≤ y) (h2 : y ≤ 9999) :
    fmtYmdDash y m d = specRenderDate (some '-') y m d := by
  have e1 : y / 100 / 10 % 10 = y / 1000 := by omega
  have e2 : y % 100 / 10 % 10 = y / 10 % 10 := by omega
  have e3 : y % 100 % 10 = y % 10 := by omega
  have e4 : y / 1000 % 10 = y / 1000 := by omega
  unfold fmtYmdDash specRenderDate
  rw [decRepr_four y h1 h2]
  apply String.ext
  show ([Nat.digitChar (y / 1000), Nat.digitChar (y / 100 % 10),
      Nat.digitChar (y / 10 % 10), Nat.digitChar (y % 10)]
      ++ ("-").data ++ (pad2 m).data ++ ("-").data ++ (pad2 d).data : List Char) = _
  simp [pad2, pad2list, sepList, e1, e2, e3]

theorem check_render_dash (y m d : Nat) :
    check_date_format (specRenderDate (some '-') y m d)
      = .ok (specRenderDate (some '-') y m d) := by
  unfold check_date_format
  rw [if_neg (specRenderDate_ne_empty _ _ _ _)]
  rw [matchesDashYmd_render_dash y m d]
  rfl

theorem check_error_symbolErr (s msg : String)
    (h : check_date_format s = .error msg) :
    get_price_check_dates s ("")
        = .error (.symbolErr (("Invalid date format: ") ++ msg)) ∧
    get_price_check_dates ("") s
        = .error (.symbolErr (("Invalid date format: ") ++ msg)) := by
  have hne : s ≠ "" := by
    intro he
    rw [he] at h
    simp [check_date_format] at h
  have hts : strTruthy s = true := by simp [strTruthy, hne]
  constructor
  · unfold get_price_check_dates
    rw [hts]
    simp [h]
  · unfold get_price_check_dates
    rw [hts]
    simp [strTruthy, h]

theorem check_render_slash (y m d : Nat) (h1 : 1000 ≤ y) (h2 : y ≤ 9999)
    (hv : validDate y m d = true) :
    check_date_format (specRenderDate (some '/') y m d)
      = .ok (specRenderDate (some '-') y m d) := by
  unfold check_date_format
  rw [if_neg (specRenderDate_ne_empty _ _ _ _)]
  rw [matchesDashYmd_render_sep '/' (by decide) y m d]
  unfold fallbackSeps
  rw [List.findSome?_cons, strptimeYmd_render (some '/') y m d (by omega) hv]
  simp [fmtYmdDash_eq_render y m d h1 h2]

theorem check_render_compact (y m d : Nat) (h1 : 1000 ≤ y) (h2 : y ≤ 9999)
    (hv : validDate y m d = true) :
    check_date_format (specRenderDate none y m d)
      = .ok (specRenderDate (some '-') y m d) := by
  unfold check_date_format
  rw [if_neg (specRenderDate_ne_empty _ _ _ _)]
  rw [matchesDashYmd_render_compact y m d]
  unfold fallbackSeps
  rw [List.findSome?_cons, strptimeYmd_slash_on_compact y m d]
  rw [List.findSome?_cons, strptimeYmd_render none y m d (by omega) hv]
  simp [fmtYmdDash_eq_render y m d h1 h2]

theorem check_render_dot (y m d : Nat) (h1 : 1000 ≤ y) (h2 : y ≤ 9999)
    (hv : validDate y m d = true) :
    check_date_format (specRenderDate (some '.') y m d)
      = .ok (specRenderDate (some '-') y m d) := by
  unfold check_date_format
  rw [if_neg (specRenderDate_ne_empty _ _ _ _)]
  rw [matchesDashYmd_render_sep '.' (by decide) y m d]
  unfold fallbackSeps
  rw [List.findSome?_cons, strptimeYmd_sep_mismatch '/' '.' (by decide) y m d]
  rw [List.findSome?_cons,
    strptimeYmd_compact_on_sep '.' (by decide) (by decide) (by decide) y m d]
  rw [List.findSome?_cons, strptimeYmd_render (some '.') y m d (by omega) hv]
  simp [fmtYmdDash_eq_render y m d h1 h2]

theorem check_render_underscore (y m d : Nat) (h1 : 1000 ≤ y) (h2 : y ≤ 9999)
    (hv : validDate y m d = true) :
    check_date_format (specRenderDate (some '_') y m d)
      = .ok (specRenderDate (some '-') y m d) := by
  unfold check_date_format
  rw [if_neg (specRenderDate_ne_empty _ _ _ _)]
  rw [matchesDashYmd_render_sep '_' (by decide) y m d]
  unfold fallbackSeps
  rw [List.findSome?_cons, strptimeYmd_sep_mismatch '/' '_' (by decide) y m d]
  rw [List.findSome?_cons,
    strptimeYmd_compact_on_sep '_' (by decide) (by decide) (by decide) y m d]
  rw [List.findSome?_cons, strptimeYmd_sep_mismatch '.' '_' (by decide) y m d]
  rw [List.findSome?_cons, strptimeYmd_render (some '_') y m d (by omega) hv]
  simp [fmtYmdDash_eq_render y m d h1 h2]


/-- Counterexample to C8 as stated: the non-empty string 2024-99-99 is not a
date string in any of the five formats (month 99 is not a calendar month),
yet check_date_format does not fail on it — the fast-path regex
\d{4}-\d{2}-\d{2} accepts it without calendar validation and returns it
unchanged, refuting "for every other non-empty string it fails". -/
theorem claim_C8_counterexample :
    specListedDateStr ("2024-99-99") = false ∧
    strTruthy ("2024-99-99") = true ∧
    check_date_format ("2024-99-99") = .ok ("2024-99-99") :=
  ⟨by decide, by decide, rfl⟩

/-- Claim C8, amended: for every valid calendar date with a four-digit year,
its rendering in any of the five formats YYYY-MM-DD, YYYY/MM/DD, YYYYMMDD,
YYYY.MM.DD, YYYY_MM_DD is normalized by check_date_format to the YYYY-MM-DD
form, and the normalization is idempotent; every failure of
check_date_format is surfaced by get_price as a SymbolError.  (Unlike the
original claim, not every other non-empty string fails: strings matching
\d{4}-\d{2}-\d{2} are returned unchanged without calendar validation —
see the counterexample.) -/
theorem claim_C8_amended (y m d : Nat) (sep : Option Char)
    (hy1 : 1000 ≤ y) (hy2 : y ≤ 9999) (hv : validDate y m d = true)
    (hsep : sep ∈ ([some '-', some '/', none, some '.', some '_'] :
      List (Option Char))) :
    check_date_format (specRenderDate sep y m d)
        = .ok (specRenderDate (some '-') y m d) ∧
    check_date_format (specRenderDate (some '-') y m d)
        = .ok (specRenderDate (some '-') y m d) ∧
    (∀ s msg, check_date_format s = .error msg →
      get_price_check_dates s ("")
          = .error (.symbolErr (("Invalid date format: ") ++ msg)) ∧
      get_price_check_dates ("") s
          = .error (.symbolErr (("Invalid date format: ") ++ msg))) := by
  refine ⟨?_, check_render_dash y m d, fun s msg h => check_error_symbolErr s msg h⟩
  fin_cases hsep
  · exact check_render_dash y m d
  · exact check_render_slash y m d hy1 hy2 hv
  · exact check_render_compact y m d hy1 hy2 hv
  · exact check_render_dot y m d hy1 hy2 hv
  · exact check_render_underscore y m d hy1 hy2 hv

/-- Witness for the amended C8 at 2024-01-02 in the slash format. -/
theorem claim_C8_amended_witness :
    validDate 2024 1 2 = true ∧
    check_date_format (specRenderDate (some '/') 2024 1 2)
      = .ok (specRenderDate (some '-') 2024 1 2) :=
  ⟨by decide,
   (claim_C8_amended 2024 1 2 (some '/') (by decide) (by decide) (by decide)
     (by decide)).1⟩

end RQuote
